import Mathlib

set_option maxRecDepth 100000

/-!
Verification development for the Pentago game engine (Pentago.py).

The board is a 6x6 grid of characters ('w', 'b', '.'), logically divided
into four 3x3 quadrants numbered 1..4 in row-major order.  The Python class
`PentagoBoard` stores the grid as a nested list plus a derived `emptyCells`
count; here the grid is a total function `Nat → Nat → Char` (the Python code
only ever indexes rows and columns 0..5) together with the stored
`emptyCells` field.  Imperative loops are embedded as folds or structural
recursions over explicit index lists; an early `return` inside a scanning
loop is embedded as a sticky flag (once the flag is set the fold's final
answer is the returned value, and the discarded tail of the loop cannot
unset it), or, for the heuristic's sentinel returns, as a guard testing the
same five-in-a-row condition that triggers the early return.
-/

/-- A Pentago board: the 6x6 grid of cell characters and the stored
empty-cell count (`self.emptyCells` in `PentagoBoard.__init__`). -/
structure PentagoBoard where
  cells : Nat → Nat → Char
  emptyCells : Nat

/-- `PentagoBoard.__init__` with a (36-character) string argument: cell
(row, col) is character `row * 6 + col` of the string, and `emptyCells` is
the number of '.' characters of the string (`board.count(".")`). -/
def PentagoBoard.fromString (s : String) : PentagoBoard :=
  { cells := fun row col => s.toList.getD (row * 6 + col) '?'
    emptyCells := s.toList.count '.' }

/-- `PentagoBoard.__init__` with the default empty argument: all 36 cells
are '.' and `emptyCells = 36`. -/
def emptyBoard : PentagoBoard :=
  { cells := fun _ _ => '.'
    emptyCells := 36 }

/-- The 36 grid cells in row-major order (rows 0..5, columns 0..5 within
each row), as read by `PentagoBoard.toString`'s generator expression. -/
def cellsList (b : PentagoBoard) : List Char :=
  (List.range 6).flatMap fun i => (List.range 6).map fun j => b.cells i j

/-- `PentagoBoard.toString`: join of all cells in row-major order. -/
def PentagoBoard.toString (b : PentagoBoard) : String :=
  String.mk (cellsList b)

/-- The number of Empty ('.') cells actually present in the 6x6 grid. -/
def numEmptyGrid (b : PentagoBoard) : Nat :=
  (cellsList b).count '.'

/-- `PentagoBoard.rotateLeft`: rotate quadrant `gameBlock` (1..4)
counter-clockwise.  The Python loop writes
`rotLeft.board[2 - j + rowOffset + colOffset][i - rowOffset + colOffset] =
self.board[i][j]`, i.e. local cell (r, c) of the quadrant moves to local
cell (2 - c, r).  Reading the new board at (x, y) inside the quadrant
therefore yields the old cell at local (y - colOffset, 2 - (x - rowOffset)).
All other cells, and the stored `emptyCells` (copied by `deepcopy`), are
unchanged. -/
def PentagoBoard.rotateLeft (b : PentagoBoard) (gameBlock : Nat) : PentagoBoard :=
  let rowOffset := ((gameBlock - 1) / 2) * 3
  let colOffset := ((gameBlock - 1) % 2) * 3
  { cells := fun x y =>
      if rowOffset ≤ x ∧ x < rowOffset + 3 ∧ colOffset ≤ y ∧ y < colOffset + 3 then
        b.cells (rowOffset + (y - colOffset)) (colOffset + (2 - (x - rowOffset)))
      else b.cells x y
    emptyCells := b.emptyCells }

/-- `PentagoBoard.rotateRight`: rotate quadrant `gameBlock` (1..4)
clockwise.  The Python loop writes
`rotRight.board[j + rowOffset - colOffset][2 - i + rowOffset + colOffset] =
self.board[i][j]`, i.e. local cell (r, c) moves to local (c, 2 - r); the
new board at (x, y) inside the quadrant is the old cell at local
(2 - (y - colOffset), x - rowOffset). -/
def PentagoBoard.rotateRight (b : PentagoBoard) (gameBlock : Nat) : PentagoBoard :=
  let rowOffset := ((gameBlock - 1) / 2) * 3
  let colOffset := ((gameBlock - 1) % 2) * 3
  { cells := fun x y =>
      if rowOffset ≤ x ∧ x < rowOffset + 3 ∧ colOffset ≤ y ∧ y < colOffset + 3 then
        b.cells (rowOffset + (2 - (y - colOffset))) (colOffset + (x - rowOffset))
      else b.cells x y
    emptyCells := b.emptyCells }

/-- The single assignment `newBoard.board[i][j] = token` inside
`PentagoBoard.applyMove` (after `deepcopy`): one cell is overwritten, the
stored `emptyCells` is not touched. -/
def placeCell (b : PentagoBoard) (i j : Nat) (token : Char) : PentagoBoard :=
  { cells := fun x y => if x = i ∧ y = j then token else b.cells x y
    emptyCells := b.emptyCells }

/-- Body of `PentagoBoard.applyMove` after the move string has been parsed
into `gameBlock`, `position`, `rotBlock`, `direction`:
`i = (position - 1) // 3 + 3 * ((gameBlock - 1) // 2)`,
`j = (position - 1) % 3 + 3 * ((gameBlock - 1) % 2)`, write the token,
then rotate right when the direction character is 'r' or 'R' and left for
every other character (the Python `else` branch). -/
def PentagoBoard.applyMoveP (b : PentagoBoard) (gameBlock position rotBlock : Nat)
    (direction : Char) (token : Char) : PentagoBoard :=
  let i := (position - 1) / 3 + 3 * ((gameBlock - 1) / 2)
  let j := (position - 1) % 3 + 3 * ((gameBlock - 1) % 2)
  let newBoard := placeCell b i j token
  if direction = 'r' ∨ direction = 'R' then newBoard.rotateRight rotBlock
  else newBoard.rotateLeft rotBlock

/-- `int(move[n])` for a digit character of the move string. -/
def digitAt (m : String) (n : Nat) : Nat :=
  (m.toList.getD n ' ').toNat - '0'.toNat

/-- `PentagoBoard.applyMove`: parse `move[0]`, `move[2]`, `move[4]` as the
digits `gameBlock`, `position`, `rotBlock` and `move[5]` as the direction
character, then perform the move. -/
def PentagoBoard.applyMove (b : PentagoBoard) (move : String) (token : Char) : PentagoBoard :=
  b.applyMoveP (digitAt move 0) (digitAt move 2) (digitAt move 4)
    (move.toList.getD 5 ' ') token

/-- The move text built by `PentagoBoard.getMoves` for the empty cell
(i, j) and rotation quadrant `k + 1` with direction `d` ("L" or "R"):
`str(gameBlock) + "/" + str(position) + " " + str(k + 1) + d` where
`gameBlock = (i // 3) * 2 + (j // 3) + 1` and
`position = (i % 3) * 3 + (j % 3) + 1`. -/
def moveText (i j k : Nat) (d : String) : String :=
  Nat.repr ((i / 3) * 2 + j / 3 + 1) ++ "/" ++ Nat.repr ((i % 3) * 3 + j % 3 + 1)
    ++ " " ++ Nat.repr (k + 1) ++ d

/-- `PentagoBoard.getMoves`: for each cell (i, j) in row-major order that
holds '.', for each rotation quadrant `k + 1` (k = 0..3), append the "L"
move and then the "R" move. -/
def PentagoBoard.getMoves (b : PentagoBoard) : List String :=
  (List.range 6).flatMap fun i => (List.range 6).flatMap fun j =>
    if b.cells i j = '.' then
      (List.range 4).flatMap fun k => [moveText i j k "L", moveText i j k "R"]
    else []

/-- A player, as in `Player.__init__`: a name, a type ("human" or
"computer"), and a token character ('b' or 'w'). -/
structure Player where
  name : String
  playerType : String
  token : Char

/-- `self.INFINITY = 10000` from `Player.__init__` (the same constant in
every instance). -/
def INFINITY : Int := 10000

/-! ### The line-scanning automaton

Each of the scanning loops of `Player.win`, `Player.lost` and `Player.h`
keeps, per line family, a counter of consecutive token cells.  At the first
index of a line (`j == 0`, `i == 0` or `k == 0`) the counter is set to 1 if
the current cell holds the token and is otherwise left unchanged; at later
indices, if the current cell holds the token the counter is incremented
when the previous cell also holds it and reset to 1 otherwise, and if the
current cell does not hold the token the counter is reset to 0.  `win` and
`lost` return `True` the moment a counter reaches 5; the early return is
embedded as a sticky boolean flag.  The same counter is shared between
consecutive lines of a family (rows share `row_counter`, the 22 diagonals
share `diagno_counter`), which is embedded by threading the final counter
of one line into the scan of the next. -/

/-- Scan the tail of a line.  `prev` is the previously visited cell, `c`
the current consecutive-run counter, `f` the sticky found-five flag. -/
def scanAux (t : Char) : Char → Nat → Bool → List Char → Nat × Bool
  | _, c, f, [] => (c, f)
  | prev, c, f, x :: xs =>
    if x = t then
      if prev = t then scanAux t x (c + 1) (f || decide (c + 1 = 5)) xs
      else scanAux t x 1 f xs
    else scanAux t x 0 f xs

/-- Scan one whole line, entering with (possibly stale) counter `c` from
the previous line of the same family: the first cell has no predecessor,
so the counter is set to 1 on a token cell and kept otherwise. -/
def scanLine (t : Char) (c : Nat) (f : Bool) : List Char → Nat × Bool
  | [] => (c, f)
  | x :: xs => if x = t then scanAux t x 1 f xs else scanAux t x c f xs

/-- Scan a family of lines sharing one counter (rows, or the diagonals). -/
def scanChain (t : Char) (lines : List (List Char)) (c : Nat) (f : Bool) : Nat × Bool :=
  lines.foldl (fun st l => scanLine t st.1 st.2 l) (c, f)

/-- Graded scan of the tail of a line, as in `Player.h`: same counter
dynamics, but reaching length 3 adds 100 and length 4 adds 900 to the
accumulated value (reaching 5 triggers the sentinel return, which is
handled by the five-in-a-row guard in `Player.h` below). -/
def gradeAux (t : Char) : Char → Nat → Int → List Char → Nat × Int
  | _, c, v, [] => (c, v)
  | prev, c, v, x :: xs =>
    if x = t then
      if prev = t then
        gradeAux t x (c + 1)
          (v + (if c + 1 = 3 then 100 else if c + 1 = 4 then 900 else 0)) xs
      else gradeAux t x 1 v xs
    else gradeAux t x 0 v xs

/-- Graded scan of one whole line (first cell handled as in `scanLine`). -/
def gradeLine (t : Char) (c : Nat) (v : Int) : List Char → Nat × Int
  | [] => (c, v)
  | x :: xs => if x = t then gradeAux t x 1 v xs else gradeAux t x c v xs

/-- Graded scan of a family of lines sharing one counter. -/
def gradeChain (t : Char) (lines : List (List Char)) (c : Nat) (v : Int) : Nat × Int :=
  lines.foldl (fun st l => gradeLine t st.1 st.2 l) (c, v)

/-- The six rows of the board, each as its list of cells (scanned left to
right by the `j` loop). -/
def rowLines (b : PentagoBoard) : List (List Char) :=
  (List.range 6).map fun i => (List.range 6).map fun j => b.cells i j

/-- The six columns of the board, each as its list of cells (scanned top
to bottom by the `i` loop; each column has its own `col_counter[j]`). -/
def colLines (b : PentagoBoard) : List (List Char) :=
  (List.range 6).map fun j => (List.range 6).map fun i => b.cells i j

/-- Index pairs of the anti-diagonal number `n` (n = 0..10), matching
`matrix[::-1, :].diagonal(n - 5)` in the Python code: the cells with
`row + col = n`, listed in the order numpy produces (row descending). -/
def antiDiagCells (n : Nat) : List (Nat × Nat) :=
  if n < 5 then (List.range (n + 1)).map fun k => (n - k, k)
  else (List.range (11 - n)).map fun k => (5 - k, k + n - 5)

/-- Index pairs of the main diagonal number `n` (n = 0..10), matching
`matrix.diagonal(5 - n)` in the Python code (offsets 5 down to -5): the
cells with `col - row = 5 - n`, in numpy's order (row ascending). -/
def mainDiagCells (n : Nat) : List (Nat × Nat) :=
  if n ≤ 5 then (List.range (n + 1)).map fun k => (k, k + 5 - n)
  else (List.range (11 - n)).map fun k => (k + n - 5, k)

/-- The 22 diagonals scanned by the code, in scan order: the 11
anti-diagonals (offsets -5..5 of the flipped matrix) followed by the 11
main diagonals (offsets 5..-5); all 22 share one `diagno_counter`. -/
def diagLines (b : PentagoBoard) : List (List Char) :=
  ((List.range 11).map fun n => (antiDiagCells n).map fun p => b.cells p.1 p.2)
    ++ ((List.range 11).map fun n => (mainDiagCells n).map fun p => b.cells p.1 p.2)

/-- All 34 scanned lines: rows, columns, diagonals. -/
def allLines (b : PentagoBoard) : List (List Char) :=
  rowLines b ++ colLines b ++ diagLines b

/-- `Player.win`: scan rows (one shared counter), columns (one counter
per column) and the 22 diagonals (one shared counter) for five consecutive
cells holding the player's own token.  The interleaving of the row and
column updates inside the Python `i, j` double loop is embedded as separate
scans: the two counters never read each other, and the early `return True`
is the disjunction of the sticky flags. -/
def Player.win (p : Player) (inpboard : PentagoBoard) : Bool :=
  let token := p.token
  (scanChain token (rowLines inpboard) 0 false).2
    || (colLines inpboard).any (fun l => (scanLine token 0 false l).2)
    || (scanChain token (diagLines inpboard) 0 false).2

/-- `Player.lost`: the same scanning code as `Player.win` (duplicated in
the source), run for the enemy token `"b" if self.token == "w" else "w"`. -/
def Player.lost (p : Player) (inpboard : PentagoBoard) : Bool :=
  let token := if p.token = 'w' then 'b' else 'w'
  (scanChain token (rowLines inpboard) 0 false).2
    || (colLines inpboard).any (fun l => (scanLine token 0 false l).2)
    || (scanChain token (diagLines inpboard) 0 false).2

/-- The centre bonus of `Player.h`: 5 points for each cell holding `t`
with `0 < i < 5` and `0 < j < 5` (the 16 interior cells). -/
def centerVal (t : Char) (b : PentagoBoard) : Int :=
  ((List.range 6).flatMap fun i => (List.range 6).map fun j =>
    if b.cells i j = t ∧ 0 < i ∧ i < 5 ∧ 0 < j ∧ j < 5 then (5 : Int) else 0).sum

/-- `Player.h`: heuristic board value.  The Python function returns 9999
the moment one of its own counters reaches 5 and -9999 the moment one of
the enemy counters reaches 5 (the enemy pass runs only after the own pass
found no 5); since the counter dynamics of the graded scan are identical
to those of the win scan, the early sentinel returns are embedded as
guards on the corresponding five-in-a-row scans.  Otherwise the value is
the own accumulated total (centre bonus plus the graded row, column and
diagonal bonuses) minus the enemy total. -/
def Player.h (p : Player) (inpboard : PentagoBoard) : Int :=
  let token := p.token
  let badtoken := if p.token = 'w' then 'b' else 'w'
  if (scanChain token (rowLines inpboard) 0 false).2
      || (colLines inpboard).any (fun l => (scanLine token 0 false l).2)
      || (scanChain token (diagLines inpboard) 0 false).2 then 9999
  else if (scanChain badtoken (rowLines inpboard) 0 false).2
      || (colLines inpboard).any (fun l => (scanLine badtoken 0 false l).2)
      || (scanChain badtoken (diagLines inpboard) 0 false).2 then -9999
  else
    (centerVal token inpboard
        + (gradeChain token (rowLines inpboard) 0 0).2
        + ((colLines inpboard).map fun l => (gradeLine token 0 0 l).2).sum
        + (gradeChain token (diagLines inpboard) 0 0).2)
      - (centerVal badtoken inpboard
        + (gradeChain badtoken (rowLines inpboard) 0 0).2
        + ((colLines inpboard).map fun l => (gradeLine badtoken 0 0 l).2).sum
        + (gradeChain badtoken (diagLines inpboard) 0 0).2)

/-- The loop of `Player.miniMax2` over the remaining own moves.  `mx` is
the running maximum (`max` in the source, initially `-(INFINITY + 1)`),
`finalMove` the best move so far (initially `None`).  For each move: apply
it; if it wins return it with `INFINITY`; otherwise if the opponent has no
reply return `(None, 0)`; otherwise take the minimum heuristic value over
all opponent replies and keep the move if that minimum beats `mx`. -/
def Player.miniMax2Go (p : Player) (board : PentagoBoard) :
    List String → Int → Option String → Option String × Int
  | [], mx, finalMove => (finalMove, mx)
  | move :: rest, mx, finalMove =>
    let newBoard := board.applyMove move p.token
    if p.win newBoard then (some move, INFINITY)
    else
      let enemyToken := if p.token = 'b' then 'w' else 'b'
      let enemyMoveList := newBoard.getMoves
      if enemyMoveList.length = 0 then (none, 0)
      else
        let mn := enemyMoveList.foldl
          (fun acc enmove =>
            let currValue := p.h (newBoard.applyMove enmove enemyToken)
            if currValue < acc then currValue else acc)
          (INFINITY + 1)
        if mn > mx then p.miniMax2Go board rest mn (some move)
        else p.miniMax2Go board rest mx finalMove

/-- `Player.miniMax2`: if the own move list is empty return `(None, 0)`,
otherwise run the loop above.  The `mn` parameter mirrors the unused `min`
argument of the Python function. -/
def Player.miniMax2 (p : Player) (board : PentagoBoard) (_mn : Int) :
    Option String × Int :=
  let moveList := board.getMoves
  if moveList.length = 0 then (none, 0)
  else p.miniMax2Go board moveList (-(INFINITY + 1)) none

/-- `Player.getComputerMove`: the move component of
`self.miniMax2(board, self.INFINITY)`. -/
def Player.getComputerMove (p : Player) (board : PentagoBoard) : Option String :=
  (p.miniMax2 board INFINITY).1

-- Temporary sanity checks against hand-simulation of the Python code.
example : emptyBoard.getMoves.length = 288 := by decide
example : emptyBoard.getMoves.take 2 = ["1/1 1L", "1/1 1R"] := by decide
example : (emptyBoard.applyMove "1/1 1L" 'w').cells 2 0 = 'w' := by decide
example : (emptyBoard.applyMove "1/1 1L" 'w').cells 0 0 = '.' := by decide
example :
    (Player.mk "x" "computer" 'w').win
      (PentagoBoard.fromString "wwwww...............................") = true := by
  decide
example :
    (Player.mk "x" "computer" 'w').win
      (PentagoBoard.fromString "wwww.w..............................") = false := by
  decide
example :
    (Player.mk "x" "computer" 'w').h
      (PentagoBoard.fromString "wwww................................") = 1000 := by
  decide

/-! ### Board equality

Python's `==` on `PentagoBoard` instances is meant extensionally: two
boards are the same value when all 36 grid cells agree and the stored
`emptyCells` counts agree. -/

/-- Extensional equality of board values: same 6x6 grid contents and same
stored empty-cell count. -/
def boardEquiv (a b : PentagoBoard) : Prop :=
  (∀ i < 6, ∀ j < 6, a.cells i j = b.cells i j) ∧ a.emptyCells = b.emptyCells

instance (a b : PentagoBoard) : Decidable (boardEquiv a b) :=
  inferInstanceAs (Decidable ((∀ i < 6, ∀ j < 6, a.cells i j = b.cells i j) ∧
    a.emptyCells = b.emptyCells))

/-- A sample mid-game position (the example string from the source's
usage comments). -/
def sampleBoard : PentagoBoard :=
  PentagoBoard.fromString "w.b.bw.w.b.wb.w..wb....w...bw.bbb.ww"

/-- Claim C5: for every board and every quadrant q in 1..4, a left
rotation undoes a right rotation and four right quarter-turns are the
identity. -/
theorem rotateLeft_rotateRight_inverse (b : PentagoBoard) (q : Nat)
    (h1 : 1 ≤ q) (h2 : q ≤ 4) :
    boardEquiv ((b.rotateRight q).rotateLeft q) b ∧
      boardEquiv ((((b.rotateRight q).rotateRight q).rotateRight q).rotateRight q) b := by
  interval_cases q <;>
    exact ⟨⟨fun i hi j hj => by interval_cases i <;> interval_cases j <;> rfl, rfl⟩,
           ⟨fun i hi j hj => by interval_cases i <;> interval_cases j <;> rfl, rfl⟩⟩

/-- Witness for C5 at a concrete board and quadrant. -/
theorem rotateLeft_rotateRight_inverse_witness :
    (1 : Nat) ≤ 2 ∧ (2 : Nat) ≤ 4 ∧
      (boardEquiv ((sampleBoard.rotateRight 2).rotateLeft 2) sampleBoard ∧
        boardEquiv
          ((((sampleBoard.rotateRight 2).rotateRight 2).rotateRight 2).rotateRight 2)
          sampleBoard) :=
  ⟨by norm_num, by norm_num,
    rotateLeft_rotateRight_inverse sampleBoard 2 (by norm_num) (by norm_num)⟩

/-- Claim C10: `applyMove` rotates clockwise exactly when the character at
index 5 of the move string is 'r' or 'R', and rotates counter-clockwise
for every other character there (including 'l', 'L' and invalid
characters); no direction character is ever rejected. -/
theorem applyMove_direction_char (b : PentagoBoard) (move : String) (token : Char) :
    ((move.toList.getD 5 ' ' = 'r' ∨ move.toList.getD 5 ' ' = 'R') →
      b.applyMove move token =
        (placeCell b ((digitAt move 2 - 1) / 3 + 3 * ((digitAt move 0 - 1) / 2))
            ((digitAt move 2 - 1) % 3 + 3 * ((digitAt move 0 - 1) % 2))
            token).rotateRight (digitAt move 4)) ∧
    (¬(move.toList.getD 5 ' ' = 'r' ∨ move.toList.getD 5 ' ' = 'R') →
      b.applyMove move token =
        (placeCell b ((digitAt move 2 - 1) / 3 + 3 * ((digitAt move 0 - 1) / 2))
            ((digitAt move 2 - 1) % 3 + 3 * ((digitAt move 0 - 1) % 2))
            token).rotateLeft (digitAt move 4)) := by
  constructor <;> intro hd <;>
    simp only [PentagoBoard.applyMove, PentagoBoard.applyMoveP, hd, if_pos, if_neg,
      not_false_iff]

/-- Witness for C10: a lower-case 'r' rotates right, and an invalid
direction character 'x' falls through to the left rotation. -/
theorem applyMove_direction_char_witness :
    (("1/1 1r".toList.getD 5 ' ' = 'r' ∨ "1/1 1r".toList.getD 5 ' ' = 'R') ∧
      emptyBoard.applyMove "1/1 1r" 'w' =
        (placeCell emptyBoard ((digitAt "1/1 1r" 2 - 1) / 3 + 3 * ((digitAt "1/1 1r" 0 - 1) / 2))
            ((digitAt "1/1 1r" 2 - 1) % 3 + 3 * ((digitAt "1/1 1r" 0 - 1) % 2))
            'w').rotateRight (digitAt "1/1 1r" 4)) ∧
    (¬("1/1 1x".toList.getD 5 ' ' = 'r' ∨ "1/1 1x".toList.getD 5 ' ' = 'R') ∧
      emptyBoard.applyMove "1/1 1x" 'w' =
        (placeCell emptyBoard ((digitAt "1/1 1x" 2 - 1) / 3 + 3 * ((digitAt "1/1 1x" 0 - 1) / 2))
            ((digitAt "1/1 1x" 2 - 1) % 3 + 3 * ((digitAt "1/1 1x" 0 - 1) % 2))
            'w').rotateLeft (digitAt "1/1 1x" 4)) :=
  ⟨⟨by decide, (applyMove_direction_char emptyBoard "1/1 1r" 'w').1 (by decide)⟩,
    ⟨by decide, (applyMove_direction_char emptyBoard "1/1 1x" 'w').2 (by decide)⟩⟩

/-- A board whose cell (0, 0) is already occupied by 'w'. -/
def occBoard : PentagoBoard :=
  PentagoBoard.fromString "w..................................."

/-- Counterexample to claim C4: applying a move whose placement target
(cell (0, 0), move "1/1 1L") is already occupied does not fail; the cell
is simply overwritten with the new token (which, after the left rotation
of quadrant 1, sits at (2, 0)). -/
theorem applyMove_occupied_counterexample :
    occBoard.cells 0 0 = 'w' ∧
      boardEquiv (occBoard.applyMove "1/1 1L" 'b')
        ((placeCell occBoard 0 0 'b').rotateLeft 1) ∧
      (placeCell occBoard 0 0 'b').cells 0 0 = 'b' ∧
      (occBoard.applyMove "1/1 1L" 'b').cells 2 0 = 'b' := by
  decide

/-- Claim C4 (amended): `applyMove` performs no emptiness check at all:
even when the placement target cell is occupied it returns a new board
with the target overwritten by the token, and no error condition exists
(legality is enforced only upstream, by membership in `getMoves`). -/
theorem applyMove_overwrites_occupied (b : PentagoBoard)
    (gameBlock position rotBlock : Nat) (direction token : Char)
    (_hocc : b.cells ((position - 1) / 3 + 3 * ((gameBlock - 1) / 2))
        ((position - 1) % 3 + 3 * ((gameBlock - 1) % 2)) ≠ '.') :
    b.applyMoveP gameBlock position rotBlock direction token =
      (if direction = 'r' ∨ direction = 'R' then
        (placeCell b ((position - 1) / 3 + 3 * ((gameBlock - 1) / 2))
          ((position - 1) % 3 + 3 * ((gameBlock - 1) % 2)) token).rotateRight rotBlock
      else
        (placeCell b ((position - 1) / 3 + 3 * ((gameBlock - 1) / 2))
          ((position - 1) % 3 + 3 * ((gameBlock - 1) % 2)) token).rotateLeft rotBlock) ∧
    (placeCell b ((position - 1) / 3 + 3 * ((gameBlock - 1) / 2))
        ((position - 1) % 3 + 3 * ((gameBlock - 1) % 2)) token).cells
      ((position - 1) / 3 + 3 * ((gameBlock - 1) / 2))
      ((position - 1) % 3 + 3 * ((gameBlock - 1) % 2)) = token :=
  ⟨rfl, by simp [placeCell]⟩

/-- Witness for the amended C4 at a concrete occupied cell. -/
theorem applyMove_overwrites_occupied_witness :
    occBoard.cells ((1 - 1) / 3 + 3 * ((1 - 1) / 2)) ((1 - 1) % 3 + 3 * ((1 - 1) % 2)) ≠ '.' ∧
      (occBoard.applyMoveP 1 1 1 'L' 'b' =
        (if ('L' : Char) = 'r' ∨ ('L' : Char) = 'R' then
          (placeCell occBoard ((1 - 1) / 3 + 3 * ((1 - 1) / 2))
            ((1 - 1) % 3 + 3 * ((1 - 1) % 2)) 'b').rotateRight 1
        else
          (placeCell occBoard ((1 - 1) / 3 + 3 * ((1 - 1) / 2))
            ((1 - 1) % 3 + 3 * ((1 - 1) % 2)) 'b').rotateLeft 1) ∧
      (placeCell occBoard ((1 - 1) / 3 + 3 * ((1 - 1) / 2))
          ((1 - 1) % 3 + 3 * ((1 - 1) % 2)) 'b').cells
        ((1 - 1) / 3 + 3 * ((1 - 1) / 2)) ((1 - 1) % 3 + 3 * ((1 - 1) % 2)) = 'b') :=
  ⟨by decide, applyMove_overwrites_occupied occBoard 1 1 1 'L' 'b' (by decide)⟩

/-- Claim C9: for the two valid tokens, the loss predicate of one player
is extensionally the win predicate of a player holding the opposite
token. -/
theorem lost_eq_win_of_opposite (b : PentagoBoard) (p q : Player)
    (hp : p.token = 'b') (hq : q.token = 'w') :
    p.lost b = q.win b ∧ q.lost b = p.win b := by
  constructor <;> simp [Player.lost, Player.win, hp, hq]

/-- Witness for C9 at concrete players and a concrete board. -/
theorem lost_eq_win_of_opposite_witness :
    (Player.mk "A" "computer" 'b').token = 'b' ∧
      (Player.mk "B" "human" 'w').token = 'w' ∧
      ((Player.mk "A" "computer" 'b').lost sampleBoard =
          (Player.mk "B" "human" 'w').win sampleBoard ∧
        (Player.mk "B" "human" 'w').lost sampleBoard =
          (Player.mk "A" "computer" 'b').win sampleBoard) :=
  ⟨rfl, rfl,
    lost_eq_win_of_opposite sampleBoard (Player.mk "A" "computer" 'b')
      (Player.mk "B" "human" 'w') rfl rfl⟩

/-! ### Row-major reindexing of the grid -/

theorem range36_eq :
    List.range 36 = (List.range 6).flatMap fun i => (List.range 6).map fun j => i * 6 + j := by
  decide

theorem flatMap_grid_eq_map_range {α : Type} (g : Nat → α) :
    ((List.range 6).flatMap fun i => (List.range 6).map fun j => g (i * 6 + j))
      = (List.range 36).map g := by
  rw [range36_eq, List.map_flatMap]
  exact List.flatMap_congr fun i _ => by simp [List.map_map, Function.comp]

/-- The row-major cell list is the image of the index range 0..35 under
row-major cell lookup. -/
theorem cellsList_eq_map_range (b : PentagoBoard) :
    cellsList b = (List.range 36).map fun idx => b.cells (idx / 6) (idx % 6) := by
  rw [← flatMap_grid_eq_map_range]
  exact List.flatMap_congr fun i hi =>
    List.map_congr_left fun j hj => by
      rw [List.mem_range] at hi hj
      congr 1 <;> omega

theorem cellsList_getD (b : PentagoBoard) (i j : Nat) (hi : i < 6) (hj : j < 6) :
    (cellsList b).getD (i * 6 + j) '?' = b.cells i j := by
  rw [cellsList_eq_map_range]
  have hlen : i * 6 + j < ((List.range 36).map fun idx => b.cells (idx / 6) (idx % 6)).length := by
    simp; omega
  rw [List.getD_eq_getElem _ _ hlen]
  rw [List.getElem_map, List.getElem_range]
  congr 1 <;> omega

/-- For a 36-character source, reading all 36 cells back gives the
original character list. -/
theorem cellsList_fromString (s : String) (h : s.toList.length = 36) :
    cellsList (PentagoBoard.fromString s) = s.toList := by
  rw [cellsList_eq_map_range]
  refine List.ext_getElem (by simp only [List.length_map, List.length_range, h]) fun n h1 h2 => ?_
  have hn : n < 36 := by simpa using h1
  rw [List.getElem_map, List.getElem_range]
  show s.toList.getD (n / 6 * 6 + n % 6) '?' = s.toList[n]
  have : n / 6 * 6 + n % 6 = n := by omega
  rw [this, List.getD_eq_getElem]

/-! ### The stored empty-cell count versus the grid (claims C2 and C8) -/

/-- The invariant asserted by the spec: the stored `emptyCells` equals the
number of '.' cells actually in the grid. -/
def emptyCellsInvariant (b : PentagoBoard) : Prop :=
  b.emptyCells = numEmptyGrid b

instance (b : PentagoBoard) : Decidable (emptyCellsInvariant b) :=
  inferInstanceAs (Decidable (b.emptyCells = numEmptyGrid b))

theorem numEmptyGrid_fromString (s : String) (h : s.toList.length = 36) :
    numEmptyGrid (PentagoBoard.fromString s) = s.toList.count '.' := by
  unfold numEmptyGrid
  rw [cellsList_fromString s h]

/-- Both quadrant rotations permute the grid, so the true number of '.'
cells is unchanged. -/
theorem numEmptyGrid_rotateLeft (b : PentagoBoard) (q : Nat) (h1 : 1 ≤ q) (h2 : q ≤ 4) :
    numEmptyGrid (b.rotateLeft q) = numEmptyGrid b := by
  have e0 : cellsList b = [b.cells 0 0, b.cells 0 1, b.cells 0 2, b.cells 0 3, b.cells 0 4, b.cells 0 5, b.cells 1 0, b.cells 1 1, b.cells 1 2, b.cells 1 3, b.cells 1 4, b.cells 1 5, b.cells 2 0, b.cells 2 1, b.cells 2 2, b.cells 2 3, b.cells 2 4, b.cells 2 5, b.cells 3 0, b.cells 3 1, b.cells 3 2, b.cells 3 3, b.cells 3 4, b.cells 3 5, b.cells 4 0, b.cells 4 1, b.cells 4 2, b.cells 4 3, b.cells 4 4, b.cells 4 5, b.cells 5 0, b.cells 5 1, b.cells 5 2, b.cells 5 3, b.cells 5 4, b.cells 5 5] := rfl
  interval_cases q
  · have e : cellsList (b.rotateLeft 1) = [b.cells 0 2, b.cells 1 2, b.cells 2 2, b.cells 0 3, b.cells 0 4, b.cells 0 5, b.cells 0 1, b.cells 1 1, b.cells 2 1, b.cells 1 3, b.cells 1 4, b.cells 1 5, b.cells 0 0, b.cells 1 0, b.cells 2 0, b.cells 2 3, b.cells 2 4, b.cells 2 5, b.cells 3 0, b.cells 3 1, b.cells 3 2, b.cells 3 3, b.cells 3 4, b.cells 3 5, b.cells 4 0, b.cells 4 1, b.cells 4 2, b.cells 4 3, b.cells 4 4, b.cells 4 5, b.cells 5 0, b.cells 5 1, b.cells 5 2, b.cells 5 3, b.cells 5 4, b.cells 5 5] := rfl
    rw [numEmptyGrid, numEmptyGrid, e, e0]
    simp only [List.count_cons, List.count_nil]
    omega
  · have e : cellsList (b.rotateLeft 2) = [b.cells 0 0, b.cells 0 1, b.cells 0 2, b.cells 0 5, b.cells 1 5, b.cells 2 5, b.cells 1 0, b.cells 1 1, b.cells 1 2, b.cells 0 4, b.cells 1 4, b.cells 2 4, b.cells 2 0, b.cells 2 1, b.cells 2 2, b.cells 0 3, b.cells 1 3, b.cells 2 3, b.cells 3 0, b.cells 3 1, b.cells 3 2, b.cells 3 3, b.cells 3 4, b.cells 3 5, b.cells 4 0, b.cells 4 1, b.cells 4 2, b.cells 4 3, b.cells 4 4, b.cells 4 5, b.cells 5 0, b.cells 5 1, b.cells 5 2, b.cells 5 3, b.cells 5 4, b.cells 5 5] := rfl
    rw [numEmptyGrid, numEmptyGrid, e, e0]
    simp only [List.count_cons, List.count_nil]
    omega
  · have e : cellsList (b.rotateLeft 3) = [b.cells 0 0, b.cells 0 1, b.cells 0 2, b.cells 0 3, b.cells 0 4, b.cells 0 5, b.cells 1 0, b.cells 1 1, b.cells 1 2, b.cells 1 3, b.cells 1 4, b.cells 1 5, b.cells 2 0, b.cells 2 1, b.cells 2 2, b.cells 2 3, b.cells 2 4, b.cells 2 5, b.cells 3 2, b.cells 4 2, b.cells 5 2, b.cells 3 3, b.cells 3 4, b.cells 3 5, b.cells 3 1, b.cells 4 1, b.cells 5 1, b.cells 4 3, b.cells 4 4, b.cells 4 5, b.cells 3 0, b.cells 4 0, b.cells 5 0, b.cells 5 3, b.cells 5 4, b.cells 5 5] := rfl
    rw [numEmptyGrid, numEmptyGrid, e, e0]
    simp only [List.count_cons, List.count_nil]
    omega
  · have e : cellsList (b.rotateLeft 4) = [b.cells 0 0, b.cells 0 1, b.cells 0 2, b.cells 0 3, b.cells 0 4, b.cells 0 5, b.cells 1 0, b.cells 1 1, b.cells 1 2, b.cells 1 3, b.cells 1 4, b.cells 1 5, b.cells 2 0, b.cells 2 1, b.cells 2 2, b.cells 2 3, b.cells 2 4, b.cells 2 5, b.cells 3 0, b.cells 3 1, b.cells 3 2, b.cells 3 5, b.cells 4 5, b.cells 5 5, b.cells 4 0, b.cells 4 1, b.cells 4 2, b.cells 3 4, b.cells 4 4, b.cells 5 4, b.cells 5 0, b.cells 5 1, b.cells 5 2, b.cells 3 3, b.cells 4 3, b.cells 5 3] := rfl
    rw [numEmptyGrid, numEmptyGrid, e, e0]
    simp only [List.count_cons, List.count_nil]
    omega

theorem numEmptyGrid_rotateRight (b : PentagoBoard) (q : Nat) (h1 : 1 ≤ q) (h2 : q ≤ 4) :
    numEmptyGrid (b.rotateRight q) = numEmptyGrid b := by
  have e0 : cellsList b = [b.cells 0 0, b.cells 0 1, b.cells 0 2, b.cells 0 3, b.cells 0 4, b.cells 0 5, b.cells 1 0, b.cells 1 1, b.cells 1 2, b.cells 1 3, b.cells 1 4, b.cells 1 5, b.cells 2 0, b.cells 2 1, b.cells 2 2, b.cells 2 3, b.cells 2 4, b.cells 2 5, b.cells 3 0, b.cells 3 1, b.cells 3 2, b.cells 3 3, b.cells 3 4, b.cells 3 5, b.cells 4 0, b.cells 4 1, b.cells 4 2, b.cells 4 3, b.cells 4 4, b.cells 4 5, b.cells 5 0, b.cells 5 1, b.cells 5 2, b.cells 5 3, b.cells 5 4, b.cells 5 5] := rfl
  interval_cases q
  · have e : cellsList (b.rotateRight 1) = [b.cells 2 0, b.cells 1 0, b.cells 0 0, b.cells 0 3, b.cells 0 4, b.cells 0 5, b.cells 2 1, b.cells 1 1, b.cells 0 1, b.cells 1 3, b.cells 1 4, b.cells 1 5, b.cells 2 2, b.cells 1 2, b.cells 0 2, b.cells 2 3, b.cells 2 4, b.cells 2 5, b.cells 3 0, b.cells 3 1, b.cells 3 2, b.cells 3 3, b.cells 3 4, b.cells 3 5, b.cells 4 0, b.cells 4 1, b.cells 4 2, b.cells 4 3, b.cells 4 4, b.cells 4 5, b.cells 5 0, b.cells 5 1, b.cells 5 2, b.cells 5 3, b.cells 5 4, b.cells 5 5] := rfl
    rw [numEmptyGrid, numEmptyGrid, e, e0]
    simp only [List.count_cons, List.count_nil]
    omega
  · have e : cellsList (b.rotateRight 2) = [b.cells 0 0, b.cells 0 1, b.cells 0 2, b.cells 2 3, b.cells 1 3, b.cells 0 3, b.cells 1 0, b.cells 1 1, b.cells 1 2, b.cells 2 4, b.cells 1 4, b.cells 0 4, b.cells 2 0, b.cells 2 1, b.cells 2 2, b.cells 2 5, b.cells 1 5, b.cells 0 5, b.cells 3 0, b.cells 3 1, b.cells 3 2, b.cells 3 3, b.cells 3 4, b.cells 3 5, b.cells 4 0, b.cells 4 1, b.cells 4 2, b.cells 4 3, b.cells 4 4, b.cells 4 5, b.cells 5 0, b.cells 5 1, b.cells 5 2, b.cells 5 3, b.cells 5 4, b.cells 5 5] := rfl
    rw [numEmptyGrid, numEmptyGrid, e, e0]
    simp only [List.count_cons, List.count_nil]
    omega
  · have e : cellsList (b.rotateRight 3) = [b.cells 0 0, b.cells 0 1, b.cells 0 2, b.cells 0 3, b.cells 0 4, b.cells 0 5, b.cells 1 0, b.cells 1 1, b.cells 1 2, b.cells 1 3, b.cells 1 4, b.cells 1 5, b.cells 2 0, b.cells 2 1, b.cells 2 2, b.cells 2 3, b.cells 2 4, b.cells 2 5, b.cells 5 0, b.cells 4 0, b.cells 3 0, b.cells 3 3, b.cells 3 4, b.cells 3 5, b.cells 5 1, b.cells 4 1, b.cells 3 1, b.cells 4 3, b.cells 4 4, b.cells 4 5, b.cells 5 2, b.cells 4 2, b.cells 3 2, b.cells 5 3, b.cells 5 4, b.cells 5 5] := rfl
    rw [numEmptyGrid, numEmptyGrid, e, e0]
    simp only [List.count_cons, List.count_nil]
    omega
  · have e : cellsList (b.rotateRight 4) = [b.cells 0 0, b.cells 0 1, b.cells 0 2, b.cells 0 3, b.cells 0 4, b.cells 0 5, b.cells 1 0, b.cells 1 1, b.cells 1 2, b.cells 1 3, b.cells 1 4, b.cells 1 5, b.cells 2 0, b.cells 2 1, b.cells 2 2, b.cells 2 3, b.cells 2 4, b.cells 2 5, b.cells 3 0, b.cells 3 1, b.cells 3 2, b.cells 5 3, b.cells 4 3, b.cells 3 3, b.cells 4 0, b.cells 4 1, b.cells 4 2, b.cells 5 4, b.cells 4 4, b.cells 3 4, b.cells 5 0, b.cells 5 1, b.cells 5 2, b.cells 5 5, b.cells 4 5, b.cells 3 5] := rfl
    rw [numEmptyGrid, numEmptyGrid, e, e0]
    simp only [List.count_cons, List.count_nil]
    omega

/-- Replacing the value of one index below `n` from '.' to something else
drops the '.' count of the mapped range by one. -/
theorem count_map_range_update (n : Nat) (g g' : Nat → Char) (idx : Nat) (hidx : idx < n)
    (hsame : ∀ y, y ≠ idx → g' y = g y) (hold : g idx = '.') (hnew : g' idx ≠ '.') :
    ((List.range n).map g').count '.' + 1 = ((List.range n).map g).count '.' := by
  induction n with
  | zero => omega
  | succ m ih =>
    rw [List.range_succ, List.map_append, List.map_append, List.count_append, List.count_append]
    by_cases hm : idx = m
    · subst hm
      have hpre : (List.range idx).map g' = (List.range idx).map g :=
        List.map_congr_left fun y hy => hsame y (by rw [List.mem_range] at hy; omega)
      rw [hpre]
      simp [List.count_cons, hold, hnew]
    · have hlt : idx < m := by omega
      have hm' : g' m = g m := hsame m (by omega)
      have := ih hlt
      simp only [List.map_cons, List.map_nil, List.count_cons, List.count_nil, hm']
      omega

theorem numEmptyGrid_placeCell (b : PentagoBoard) (i j : Nat) (tok : Char)
    (hi : i < 6) (hj : j < 6) (hemp : b.cells i j = '.') (htok : tok ≠ '.') :
    numEmptyGrid (placeCell b i j tok) + 1 = numEmptyGrid b := by
  unfold numEmptyGrid
  rw [cellsList_eq_map_range, cellsList_eq_map_range]
  refine count_map_range_update 36
    (fun idx => b.cells (idx / 6) (idx % 6))
    (fun idx => (placeCell b i j tok).cells (idx / 6) (idx % 6))
    (i * 6 + j) (by omega) (fun y hy => ?_) ?_ ?_
  · show (if y / 6 = i ∧ y % 6 = j then tok else b.cells (y / 6) (y % 6)) = _
    rw [if_neg]
    rintro ⟨h1, h2⟩
    omega
  · show b.cells ((i * 6 + j) / 6) ((i * 6 + j) % 6) = '.'
    have e1 : (i * 6 + j) / 6 = i := by omega
    have e2 : (i * 6 + j) % 6 = j := by omega
    rw [e1, e2, hemp]
  · show (if (i * 6 + j) / 6 = i ∧ (i * 6 + j) % 6 = j then tok else _) ≠ '.'
    rw [if_pos ⟨by omega, by omega⟩]
    exact htok

/-- Counterexample to claim C2: the empty board satisfies the invariant,
but applying the legal move "1/1 1L" does not decrement the stored count:
the resulting board stores `emptyCells = 36` while its grid has only 35
'.' cells. -/
theorem emptyCells_invariant_counterexample :
    emptyCellsInvariant emptyBoard ∧
      (emptyBoard.applyMove "1/1 1L" 'w').emptyCells = 36 ∧
      numEmptyGrid (emptyBoard.applyMove "1/1 1L" 'w') = 35 ∧
      ¬ emptyCellsInvariant (emptyBoard.applyMove "1/1 1L" 'w') := by
  decide

/-- Claim C2 (amended): construction (empty or from a 36-character string)
establishes the invariant and both rotations preserve it, but `applyMove`
breaks it: placing on an Empty target cell decreases the true grid count
by one while leaving the stored `emptyCells` unchanged. -/
theorem emptyCells_invariant_facts :
    emptyCellsInvariant emptyBoard ∧
    (∀ s : String, s.toList.length = 36 → emptyCellsInvariant (PentagoBoard.fromString s)) ∧
    (∀ (b : PentagoBoard) (q : Nat), 1 ≤ q → q ≤ 4 →
      (numEmptyGrid (b.rotateLeft q) = numEmptyGrid b ∧
        (b.rotateLeft q).emptyCells = b.emptyCells) ∧
      (numEmptyGrid (b.rotateRight q) = numEmptyGrid b ∧
        (b.rotateRight q).emptyCells = b.emptyCells)) ∧
    (∀ (b : PentagoBoard) (gb ps rb : Nat) (dir tok : Char),
      1 ≤ gb → gb ≤ 4 → 1 ≤ ps → ps ≤ 9 →
      b.cells ((ps - 1) / 3 + 3 * ((gb - 1) / 2)) ((ps - 1) % 3 + 3 * ((gb - 1) % 2)) = '.' →
      tok ≠ '.' → 1 ≤ rb → rb ≤ 4 →
      numEmptyGrid (b.applyMoveP gb ps rb dir tok) + 1 = numEmptyGrid b ∧
        (b.applyMoveP gb ps rb dir tok).emptyCells = b.emptyCells) := by
  refine ⟨by decide, ?_, ?_, ?_⟩
  · intro s hs
    show (PentagoBoard.fromString s).emptyCells = _
    rw [numEmptyGrid_fromString s hs]
    rfl
  · intro b q h1 h2
    exact ⟨⟨numEmptyGrid_rotateLeft b q h1 h2, rfl⟩,
      ⟨numEmptyGrid_rotateRight b q h1 h2, rfl⟩⟩
  · intro b gb ps rb dir tok hgb1 hgb2 hps1 hps2 hemp htok hrb1 hrb2
    have hi : (ps - 1) / 3 + 3 * ((gb - 1) / 2) < 6 := by omega
    have hj : (ps - 1) % 3 + 3 * ((gb - 1) % 2) < 6 := by omega
    have hplace := numEmptyGrid_placeCell b _ _ tok hi hj hemp htok
    unfold PentagoBoard.applyMoveP
    by_cases hdir : dir = 'r' ∨ dir = 'R'
    · rw [if_pos hdir]
      rw [numEmptyGrid_rotateRight _ rb hrb1 hrb2]
      exact ⟨hplace, rfl⟩
    · rw [if_neg hdir]
      rw [numEmptyGrid_rotateLeft _ rb hrb1 hrb2]
      exact ⟨hplace, rfl⟩

/-- Witness for the amended C2 at concrete inputs. -/
theorem emptyCells_invariant_facts_witness :
    ("w.b.bw.w.b.wb.w..wb....w...bw.bbb.ww".toList.length = 36 ∧
      emptyCellsInvariant (PentagoBoard.fromString "w.b.bw.w.b.wb.w..wb....w...bw.bbb.ww")) ∧
    ((1 : Nat) ≤ 3 ∧ (3 : Nat) ≤ 4 ∧
      numEmptyGrid (emptyBoard.rotateLeft 3) = numEmptyGrid emptyBoard ∧
      numEmptyGrid (emptyBoard.rotateRight 3) = numEmptyGrid emptyBoard) ∧
    (emptyBoard.cells ((1 - 1) / 3 + 3 * ((1 - 1) / 2)) ((1 - 1) % 3 + 3 * ((1 - 1) % 2)) = '.' ∧
      ('w' : Char) ≠ '.' ∧
      numEmptyGrid (emptyBoard.applyMoveP 1 1 1 'L' 'w') + 1 = numEmptyGrid emptyBoard ∧
      (emptyBoard.applyMoveP 1 1 1 'L' 'w').emptyCells = emptyBoard.emptyCells) :=
  ⟨⟨by decide, emptyCells_invariant_facts.2.1 _ (by decide)⟩,
    ⟨by norm_num, by norm_num,
      (emptyCells_invariant_facts.2.2.1 emptyBoard 3 (by norm_num) (by norm_num)).1.1,
      (emptyCells_invariant_facts.2.2.1 emptyBoard 3 (by norm_num) (by norm_num)).2.1⟩,
    ⟨by decide, by decide,
      (emptyCells_invariant_facts.2.2.2 emptyBoard 1 1 1 'L' 'w' (by norm_num) (by norm_num)
        (by norm_num) (by norm_num) (by decide) (by decide) (by norm_num) (by norm_num)).1,
      (emptyCells_invariant_facts.2.2.2 emptyBoard 1 1 1 'L' 'w' (by norm_num) (by norm_num)
        (by norm_num) (by norm_num) (by decide) (by decide) (by norm_num) (by norm_num)).2⟩⟩

/-! ### Serialization round trip (claim C8) -/

/-- Boards reachable from the empty board or from a valid 36-character
initial string by move application and rotations. -/
inductive Reachable : PentagoBoard → Prop where
  | protected empty : Reachable emptyBoard
  | initial (s : String) (h36 : s.toList.length = 36)
      (hchars : ∀ c ∈ s.toList, c = 'w' ∨ c = 'b' ∨ c = '.') :
      Reachable (PentagoBoard.fromString s)
  | applyMv (b : PentagoBoard) (m : String) (tok : Char) (hb : Reachable b)
      (htok : tok = 'w' ∨ tok = 'b') (hm : m ∈ b.getMoves) :
      Reachable (b.applyMove m tok)
  | rotL (b : PentagoBoard) (q : Nat) (hb : Reachable b) (h1 : 1 ≤ q) (h2 : q ≤ 4) :
      Reachable (b.rotateLeft q)
  | rotR (b : PentagoBoard) (q : Nat) (hb : Reachable b) (h1 : 1 ≤ q) (h2 : q ≤ 4) :
      Reachable (b.rotateRight q)

/-- Counterexample to claim C8: the reachable board obtained by playing
"1/1 1L" on the empty board does not round-trip: deserializing its
serialization restores the true empty count 35, not the stale stored
count 36. -/
theorem toString_roundtrip_counterexample :
    Reachable (emptyBoard.applyMove "1/1 1L" 'w') ∧
      ¬ boardEquiv (PentagoBoard.fromString (emptyBoard.applyMove "1/1 1L" 'w').toString)
        (emptyBoard.applyMove "1/1 1L" 'w') :=
  ⟨Reachable.applyMv emptyBoard "1/1 1L" 'w' Reachable.empty (Or.inl rfl) (by decide),
    by decide⟩

/-- Claim C8 (amended): for every board the 36 grid cells round-trip
through serialization, and serialization of a board built from a valid
36-character string returns that string; but the reconstructed
`emptyCells` is the true number of '.' cells of the grid, which differs
from the stored count of any board that went through `applyMove`. -/
theorem toString_roundtrip_facts :
    (∀ b : PentagoBoard,
      (∀ i < 6, ∀ j < 6,
        (PentagoBoard.fromString b.toString).cells i j = b.cells i j) ∧
      (PentagoBoard.fromString b.toString).emptyCells = numEmptyGrid b) ∧
    (∀ s : String, s.toList.length = 36 → (PentagoBoard.fromString s).toString = s) := by
  constructor
  · intro b
    constructor
    · intro i hi j hj
      show (PentagoBoard.toString b).toList.getD (i * 6 + j) '?' = b.cells i j
      show (cellsList b).getD (i * 6 + j) '?' = b.cells i j
      exact cellsList_getD b i j hi hj
    · rfl
  · intro s hs
    show String.mk (cellsList (PentagoBoard.fromString s)) = s
    rw [cellsList_fromString s hs]
    rfl

/-- Witness for the amended C8 at concrete inputs. -/
theorem toString_roundtrip_facts_witness :
    ((∀ i < 6, ∀ j < 6,
        (PentagoBoard.fromString sampleBoard.toString).cells i j = sampleBoard.cells i j) ∧
      (PentagoBoard.fromString sampleBoard.toString).emptyCells = numEmptyGrid sampleBoard) ∧
    ("w.b.bw.w.b.wb.w..wb....w...bw.bbb.ww".toList.length = 36 ∧
      (PentagoBoard.fromString "w.b.bw.w.b.wb.w..wb....w...bw.bbb.ww").toString
        = "w.b.bw.w.b.wb.w..wb....w...bw.bbb.ww") :=
  ⟨toString_roundtrip_facts.1 sampleBoard,
    by decide, toString_roundtrip_facts.2 _ (by decide)⟩

/-! ### The move enumerator (claim C7) -/

/-- The move list as described by the spec: all empty cells in row-major
order (indices 0..35 of the serialized board), then rotation quadrants 1
to 4, then "L" before "R", each move in the exact text form
`<placementQuadrant>/<placementPosition> <rotationQuadrant><L or R>` with
quadrants numbered row-major 1..4 and positions row-major 1..9. -/
def specMoves (b : PentagoBoard) : List String :=
  ((List.range 36).filter fun idx => b.cells (idx / 6) (idx % 6) == '.').flatMap fun idx =>
    (List.range 4).flatMap fun r =>
      [Nat.repr (2 * (idx / 6 / 3) + idx % 6 / 3 + 1) ++ "/" ++
          Nat.repr (3 * (idx / 6 % 3) + idx % 6 % 3 + 1) ++ " " ++ Nat.repr (r + 1) ++ "L",
        Nat.repr (2 * (idx / 6 / 3) + idx % 6 / 3 + 1) ++ "/" ++
          Nat.repr (3 * (idx / 6 % 3) + idx % 6 % 3 + 1) ++ " " ++ Nat.repr (r + 1) ++ "R"]

theorem filter_flatMap {α β : Type} (l : List α) (p : α → Bool) (f : α → List β) :
    (l.filter p).flatMap f = l.flatMap fun x => if p x then f x else [] := by
  induction l with
  | nil => rfl
  | cons a t ih => by_cases h : p a <;> simp [List.filter_cons, h, ih]

theorem flatMap_grid_eq_flatMap_range {α : Type} (g : Nat → List α) :
    ((List.range 6).flatMap fun i => (List.range 6).flatMap fun j => g (i * 6 + j))
      = (List.range 36).flatMap g := by
  rw [range36_eq, List.flatMap_assoc]
  exact List.flatMap_congr fun i _ => (List.flatMap_map _ _ _).symm

theorem getMoves_eq_specMoves (b : PentagoBoard) : b.getMoves = specMoves b := by
  unfold specMoves
  rw [filter_flatMap, ← flatMap_grid_eq_flatMap_range]
  refine List.flatMap_congr fun i hi => List.flatMap_congr fun j hj => ?_
  rw [List.mem_range] at hi hj
  have d1 : (i * 6 + j) / 6 = i := by omega
  have d2 : (i * 6 + j) % 6 = j := by omega
  rw [d1, d2]
  by_cases hc : b.cells i j = '.'
  · rw [if_pos hc, if_pos (by simp [hc])]
    refine List.flatMap_congr fun k _ => ?_
    have e1 : i / 3 * 2 + j / 3 + 1 = 2 * (i / 3) + j / 3 + 1 := by ring
    have e2 : i % 3 * 3 + j % 3 + 1 = 3 * (i % 3) + j % 3 + 1 := by ring
    simp only [moveText, e1, e2]
  · rw [if_neg hc, if_neg (by simp [hc])]

theorem sum_map_const_length {α β : Type} (l : List α) (f : α → List β) (n : Nat)
    (h : ∀ x ∈ l, (f x).length = n) :
    (l.map (List.length ∘ f)).sum = l.length * n := by
  induction l with
  | nil => simp
  | cons a t ih =>
    have ha : (f a).length = n := h a (List.mem_cons_self a t)
    have ht := ih fun x hx => h x (List.mem_cons_of_mem a hx)
    simp only [List.map_cons, List.sum_cons, List.length_cons, Function.comp_apply, ha, ht]
    ring

theorem getMoves_length (b : PentagoBoard) :
    b.getMoves.length = 8 * numEmptyGrid b := by
  have h8 : ∀ idx : Nat,
      ((List.range 4).flatMap fun r =>
        [Nat.repr (2 * (idx / 6 / 3) + idx % 6 / 3 + 1) ++ "/" ++
            Nat.repr (3 * (idx / 6 % 3) + idx % 6 % 3 + 1) ++ " " ++ Nat.repr (r + 1) ++ "L",
          Nat.repr (2 * (idx / 6 / 3) + idx % 6 / 3 + 1) ++ "/" ++
            Nat.repr (3 * (idx / 6 % 3) + idx % 6 % 3 + 1) ++ " " ++ Nat.repr (r + 1) ++
            "R"]).length = 8 :=
    fun _ => rfl
  rw [getMoves_eq_specMoves]
  unfold specMoves
  rw [List.length_flatMap, sum_map_const_length _ _ 8 fun x _ => h8 x]
  have hcount : ((List.range 36).filter fun idx => b.cells (idx / 6) (idx % 6) == '.').length
      = numEmptyGrid b := by
    rw [← List.countP_eq_length_filter]
    show _ = (cellsList b).count '.'
    rw [cellsList_eq_map_range, List.count_eq_countP, List.countP_map]
    rfl
  rw [hcount]
  ring

theorem getMoves_eq_nil_iff (b : PentagoBoard) :
    b.getMoves = [] ↔ numEmptyGrid b = 0 := by
  constructor
  · intro he
    have := getMoves_length b
    rw [he] at this
    simp at this
    omega
  · intro hz
    have : b.getMoves.length = 0 := by rw [getMoves_length, hz]
    exact List.eq_nil_of_length_eq_zero this

/-- Claim C7: `getMoves` produces exactly the spec's ordered move list: 8
moves per empty cell (so 8 times the number of empty cells in total, and
the empty list exactly when the board is full), enumerated by placement
cell in row-major order, then rotation quadrant 1..4, then L before R, in
the exact text form. -/
theorem getMoves_spec (b : PentagoBoard) :
    b.getMoves = specMoves b ∧
      b.getMoves.length = 8 * numEmptyGrid b ∧
      (b.getMoves = [] ↔ numEmptyGrid b = 0) :=
  ⟨getMoves_eq_specMoves b, getMoves_length b, getMoves_eq_nil_iff b⟩

/-! ### Runs and the five-in-a-row specification (claim C6)

`maximalRuns t l` lists the lengths of the maximal blocks of consecutive
`t` cells of the line `l` (the glossary's "runs"); `runsAux` additionally
carries the length `c` of a run entered from the left, which mirrors the
scanning counter. -/

/-- Lengths of the maximal runs of `t` in `l`, where the scan enters with
a current run of length `c` already underway. -/
def runsAux (t : Char) (c : Nat) : List Char → List Nat
  | [] => if c = 0 then [] else [c]
  | x :: xs =>
    if x = t then runsAux t (c + 1) xs
    else if c = 0 then runsAux t 0 xs else c :: runsAux t 0 xs

/-- The lengths of the maximal runs of token `t` along the line `l`. -/
def maximalRuns (t : Char) (l : List Char) : List Nat := runsAux t 0 l

/-- Once the sticky found-five flag is set the scan keeps it set. -/
theorem scanAux_true (t : Char) (l : List Char) :
    ∀ (prev : Char) (c : Nat), (scanAux t prev c true l).2 = true := by
  induction l with
  | nil => intro prev c; rfl
  | cons x xs ih =>
    intro prev c
    by_cases hx : x = t
    · by_cases hp : prev = t <;> simp [scanAux, hx, hp, ih]
    · simp [scanAux, hx, ih]

/-- A carried run of length at least five always yields a recorded run of
length at least five. -/
theorem runsAux_carry_ge (t : Char) (l : List Char) :
    ∀ c : Nat, 5 ≤ c → ∃ r ∈ runsAux t c l, 5 ≤ r := by
  induction l with
  | nil =>
    intro c hc
    have h0 : ¬ c = 0 := by omega
    exact ⟨c, by simp [runsAux, h0], hc⟩
  | cons x xs ih =>
    intro c hc
    by_cases hx : x = t
    · have := ih (c + 1) (by omega)
      simpa [runsAux, hx] using this
    · have h0 : ¬ c = 0 := by omega
      refine ⟨c, ?_, hc⟩
      simp [runsAux, hx, h0]

/-- Core characterization of the five-in-a-row scan: the sticky flag ends
up set exactly when it was set on entry or some (possibly carried-in)
maximal run reaches length five.  The carried counter must be at most 4
when the flag is still unset, which is an invariant of the automaton. -/
theorem scanAux_five_iff (t : Char) (l : List Char) :
    ∀ (prev : Char) (c : Nat) (f : Bool), (prev = t → c ≤ 4) →
      ((scanAux t prev c f l).2 = true ↔
        (f = true ∨ ∃ r ∈ runsAux t (if prev = t then c else 0) l, 5 ≤ r)) := by
  induction l with
  | nil =>
    intro prev c f hc
    by_cases hp : prev = t
    · have hc4 := hc hp
      by_cases h0 : c = 0
      · simp [scanAux, runsAux, hp, h0]
      · have hr : runsAux t (if prev = t then c else 0) [] = [c] := by
          simp [runsAux, hp, h0]
        show f = true ↔ _
        rw [hr]
        simp only [List.mem_singleton]
        constructor
        · exact fun h => Or.inl h
        · rintro (h | ⟨r, rfl, h5⟩)
          · exact h
          · omega
    · simp [scanAux, runsAux, hp]
  | cons x xs ih =>
    intro prev c f hc
    by_cases hx : x = t
    · by_cases hp : prev = t
      · have hc4 := hc hp
        by_cases h4 : c = 4
        · subst h4
          have hstep : (scanAux t prev 4 f (x :: xs)).2
              = (scanAux t x (4 + 1) (f || decide (4 + 1 = 5)) xs).2 := by
            simp [scanAux, hx, hp]
          have hflag : (f || decide (4 + 1 = 5)) = true := by simp
          constructor
          · intro _
            refine Or.inr ?_
            have hren : runsAux t (if prev = t then 4 else 0) (x :: xs) = runsAux t 5 xs := by
              simp [runsAux, hp, hx]
            rw [hren]
            exact runsAux_carry_ge t xs 5 (by omega)
          · intro _
            rw [hstep, hflag]
            exact scanAux_true t xs x 5
        · have hstep : (scanAux t prev c f (x :: xs)).2
              = (scanAux t x (c + 1) (f || decide (c + 1 = 5)) xs).2 := by
            simp [scanAux, hx, hp]
          have hdec : (f || decide (c + 1 = 5)) = f := by
            have : ¬ (c + 1 = 5) := by omega
            simp [this]
          rw [hstep, hdec]
          have := ih x (c + 1) f (fun _ => by omega)
          rw [this]
          have : runsAux t (if prev = t then c else 0) (x :: xs) = runsAux t (c + 1) xs := by
            simp [runsAux, hp, hx]
          rw [this]
          simp [hx]
      · have hstep : (scanAux t prev c f (x :: xs)).2 = (scanAux t x 1 f xs).2 := by
          simp [scanAux, hx, hp]
        rw [hstep]
        have := ih x 1 f (fun _ => by omega)
        rw [this]
        have : runsAux t (if prev = t then c else 0) (x :: xs) = runsAux t 1 xs := by
          simp [runsAux, hp, hx]
        rw [this]
        simp [hx]
    · have hstep : (scanAux t prev c f (x :: xs)).2 = (scanAux t x 0 f xs).2 := by
        simp [scanAux, hx]
      rw [hstep]
      have := ih x 0 f (fun hxt => absurd hxt hx)
      rw [this]
      by_cases hp : prev = t
      · have hc4 := hc hp
        by_cases h0 : c = 0
        · simp [runsAux, hp, hx, h0]
        · have : runsAux t (if prev = t then c else 0) (x :: xs)
              = c :: runsAux t 0 xs := by simp [runsAux, hp, hx, h0]
          rw [this]
          simp only [hx, if_neg, List.mem_cons]
          constructor
          · rintro (h | ⟨r, hr, h5⟩)
            · exact Or.inl h
            · exact Or.inr ⟨r, Or.inr hr, h5⟩
          · rintro (h | ⟨r, rfl | hr, h5⟩)
            · exact Or.inl h
            · omega
            · exact Or.inr ⟨r, hr, h5⟩
      · simp [runsAux, hp, hx]

/-- One whole line: the flag ends up set exactly when it was set on entry
or the line contains a maximal run of length at least five; the stale
counter carried from a previous line is irrelevant. -/
theorem scanLine_five_iff (t : Char) (l : List Char) (c : Nat) (f : Bool) :
    (scanLine t c f l).2 = true ↔ (f = true ∨ ∃ r ∈ maximalRuns t l, 5 ≤ r) := by
  cases l with
  | nil => simp [scanLine, maximalRuns, runsAux]
  | cons x xs =>
    by_cases hx : x = t
    · have hstep : (scanLine t c f (x :: xs)).2 = (scanAux t x 1 f xs).2 := by
        simp [scanLine, hx]
      rw [hstep, scanAux_five_iff t xs x 1 f (fun _ => by omega)]
      have : maximalRuns t (x :: xs) = runsAux t 1 xs := by
        simp [maximalRuns, runsAux, hx]
      rw [this]
      simp [hx]
    · have hstep : (scanLine t c f (x :: xs)).2 = (scanAux t x c f xs).2 := by
        simp [scanLine, hx]
      rw [hstep, scanAux_five_iff t xs x c f (fun hxt => absurd hxt hx)]
      have : maximalRuns t (x :: xs) = runsAux t 0 xs := by
        simp [maximalRuns, runsAux, hx]
      rw [this]
      simp [hx]

/-- A whole family of lines sharing one counter. -/
theorem scanChain_five_iff (t : Char) (lines : List (List Char)) :
    ∀ (c : Nat) (f : Bool),
      (scanChain t lines c f).2 = true ↔
        (f = true ∨ ∃ l ∈ lines, ∃ r ∈ maximalRuns t l, 5 ≤ r) := by
  induction lines with
  | nil => intro c f; simp [scanChain]
  | cons l ls ih =>
    intro c f
    have hstep : scanChain t (l :: ls) c f
        = scanChain t ls (scanLine t c f l).1 (scanLine t c f l).2 := by
      simp [scanChain, List.foldl_cons]
    rw [hstep, ih, scanLine_five_iff]
    simp only [List.mem_cons]
    constructor
    · rintro ((h | ⟨r, hr, h5⟩) | ⟨l', hl', r, hr, h5⟩)
      · exact Or.inl h
      · exact Or.inr ⟨l, Or.inl rfl, r, hr, h5⟩
      · exact Or.inr ⟨l', Or.inr hl', r, hr, h5⟩
    · rintro (h | ⟨l', hl' | hl', r, hr, h5⟩)
      · exact Or.inl (Or.inl h)
      · subst hl'; exact Or.inl (Or.inr ⟨r, hr, h5⟩)
      · exact Or.inr ⟨l', hl', r, hr, h5⟩

theorem replicate_five_prefix_of_le (t : Char) (m : Nat) (h : 5 ≤ m) :
    List.replicate 5 t <+: List.replicate m t := by
  have : List.replicate m t = List.replicate 5 t ++ List.replicate (m - 5) t := by
    rw [← List.replicate_add]
    congr 1
    omega
  rw [this]
  exact List.prefix_append _ _

/-- A maximal run of length at least five (with a carried-in run of length
`c`) is the same thing as an all-`t` prefix completing the carried run to
five, or a five-in-a-row infix. -/
theorem runsAux_five_iff (t : Char) (l : List Char) :
    ∀ c : Nat,
      (∃ r ∈ runsAux t c l, 5 ≤ r) ↔
        ((∃ m, 5 ≤ c + m ∧ List.replicate m t <+: l) ∨
          List.replicate 5 t <:+: l) := by
  induction l with
  | nil =>
    intro c
    constructor
    · rintro ⟨r, hr, h5⟩
      by_cases h0 : c = 0
      · simp [runsAux, h0] at hr
      · simp [runsAux, h0] at hr
        subst hr
        exact Or.inl ⟨0, by omega, by simp⟩
    · rintro (⟨m, hm, hp⟩ | hinf)
      · rw [List.prefix_nil] at hp
        have hm0 : m = 0 := by simpa [List.replicate_eq_nil_iff] using hp
        subst hm0
        have h0 : ¬ c = 0 := by omega
        exact ⟨c, by simp [runsAux, h0], by omega⟩
      · rw [List.infix_nil] at hinf
        simp [List.replicate_eq_nil_iff] at hinf
  | cons x xs ih =>
    intro c
    have h45 : List.replicate 5 t = t :: List.replicate 4 t := rfl
    by_cases hx : x = t
    · subst hx
      have hruns : runsAux x c (x :: xs) = runsAux x (c + 1) xs := by
        simp [runsAux]
      rw [hruns, ih (c + 1)]
      constructor
      · rintro (⟨m, hm, hp⟩ | hinf)
        · exact Or.inl ⟨m + 1, by omega,
            by rw [List.replicate_succ]; exact List.cons_prefix_cons.mpr ⟨rfl, hp⟩⟩
        · exact Or.inr (List.infix_cons hinf)
      · rintro (⟨m, hm, hp⟩ | hinf)
        · cases m with
          | zero => exact Or.inl ⟨0, by omega, List.nil_prefix⟩
          | succ m' =>
            rw [List.replicate_succ] at hp
            exact Or.inl ⟨m', by omega, (List.cons_prefix_cons.mp hp).2⟩
        · rcases List.infix_cons_iff.mp hinf with hpre | hinf'
          · rw [h45] at hpre
            exact Or.inl ⟨4, by omega, (List.cons_prefix_cons.mp hpre).2⟩
          · exact Or.inr hinf'
    · have hL : (∃ r ∈ runsAux t c (x :: xs), 5 ≤ r) ↔
          (5 ≤ c ∨ ∃ r ∈ runsAux t 0 xs, 5 ≤ r) := by
        by_cases h0 : c = 0
        · subst h0
          simp [runsAux, hx]
        · have : runsAux t c (x :: xs) = c :: runsAux t 0 xs := by
            simp [runsAux, hx, h0]
          rw [this]
          simp only [List.mem_cons]
          constructor
          · rintro ⟨r, rfl | hr, h5⟩
            · exact Or.inl h5
            · exact Or.inr ⟨r, hr, h5⟩
          · rintro (h5 | ⟨r, hr, h5⟩)
            · exact ⟨c, Or.inl rfl, h5⟩
            · exact ⟨r, Or.inr hr, h5⟩
      rw [hL, ih 0]
      have hcollapse : ((∃ m, 5 ≤ 0 + m ∧ List.replicate m t <+: xs) ∨
            List.replicate 5 t <:+: xs) ↔ List.replicate 5 t <:+: xs := by
        constructor
        · rintro (⟨m, hm, hp⟩ | h)
          · exact ((replicate_five_prefix_of_le t m (by omega)).trans hp).isInfix
          · exact h
        · exact fun h => Or.inr h
      rw [hcollapse]
      have hR1 : (∃ m, 5 ≤ c + m ∧ List.replicate m t <+: x :: xs) ↔ 5 ≤ c := by
        constructor
        · rintro ⟨m, hm, hp⟩
          cases m with
          | zero => omega
          | succ m' =>
            rw [List.replicate_succ] at hp
            exact absurd (List.cons_prefix_cons.mp hp).1.symm hx
        · exact fun h5 => ⟨0, by omega, List.nil_prefix⟩
      have hR2 : List.replicate 5 t <:+: x :: xs ↔ List.replicate 5 t <:+: xs := by
        rw [List.infix_cons_iff]
        constructor
        · rintro (hpre | h)
          · rw [h45] at hpre
            exact absurd (List.cons_prefix_cons.mp hpre).1.symm hx
          · exact h
        · exact fun h => Or.inr h
      rw [hR1, hR2]

/-- The runs-based five-in-a-row condition for a fresh line is exactly a
five-token infix. -/
theorem maximalRuns_five_iff (t : Char) (l : List Char) :
    (∃ r ∈ maximalRuns t l, 5 ≤ r) ↔ List.replicate 5 t <:+: l := by
  rw [maximalRuns, runsAux_five_iff]
  constructor
  · rintro (⟨m, hm, hp⟩ | h)
    · exact ((replicate_five_prefix_of_le t m (by omega)).trans hp).isInfix
    · exact h
  · exact fun h => Or.inr h

/-- Claim C6: the win predicate holds exactly when some row, column or
diagonal (either direction) of the board contains 5 or more consecutive
cells equal to the player's token. -/
theorem win_iff_five_in_a_row (p : Player) (b : PentagoBoard) :
    p.win b = true ↔ ∃ l ∈ allLines b, List.replicate 5 p.token <:+: l := by
  have hforms : p.win b = true ↔
      ((scanChain p.token (rowLines b) 0 false).2 = true ∨
        (∃ l ∈ colLines b, (scanLine p.token 0 false l).2 = true) ∨
        (scanChain p.token (diagLines b) 0 false).2 = true) := by
    simp [Player.win, Bool.or_eq_true, List.any_eq_true, or_assoc]
  rw [hforms, scanChain_five_iff, scanChain_five_iff]
  have hcol : (∃ l ∈ colLines b, (scanLine p.token 0 false l).2 = true) ↔
      ∃ l ∈ colLines b, ∃ r ∈ maximalRuns p.token l, 5 ≤ r := by
    refine exists_congr fun l => and_congr_right fun _ => ?_
    rw [scanLine_five_iff]
    simp
  rw [hcol]
  have hsplit : ∀ P : List Char → Prop,
      ((∃ l ∈ rowLines b, P l) ∨ (∃ l ∈ colLines b, P l) ∨ (∃ l ∈ diagLines b, P l)) ↔
        ∃ l ∈ allLines b, P l := by
    intro P
    simp [allLines, List.mem_append, or_and_right, exists_or]
  have hfin := hsplit fun l => ∃ r ∈ maximalRuns p.token l, 5 ≤ r
  simp only [Bool.false_eq_true, false_or]
  rw [hfin]
  exact exists_congr fun l => and_congr_right fun _ => maximalRuns_five_iff p.token l

/-! ### The graded scan and run bonuses (claim C3)

During a single run the graded counter pays 100 when it reaches length 3
and a further 900 when it reaches length 4; `paid n` is the total amount
paid while a run grows to length `n`. -/

/-- Total bonus paid by the graded scan while one run grows to length
`n`: 100 once length 3 is reached plus 900 once length 4 is reached. -/
def paid (n : Nat) : Int :=
  (if 3 ≤ n then 100 else 0) + (if 4 ≤ n then 900 else 0)

/-- The incremental bonus of the source (+100 at exactly 3, +900 at
exactly 4) is the difference of the totals. -/
theorem bonus_step_eq (c : Nat) :
    (if c + 1 = 3 then (100 : Int) else if c + 1 = 4 then 900 else 0)
      = paid (c + 1) - paid c := by
  unfold paid
  split_ifs <;> omega

/-- Value accumulated by the graded scan of the tail of a line: the paid
totals of all (possibly carried-in) runs, minus what was already paid for
the carried-in part. -/
theorem gradeAux_val (t : Char) (l : List Char) :
    ∀ (prev : Char) (c : Nat) (v : Int),
      (gradeAux t prev c v l).2
        = v + ((runsAux t (if prev = t then c else 0) l).map paid).sum
            - paid (if prev = t then c else 0) := by
  induction l with
  | nil =>
    intro prev c v
    by_cases hp : prev = t
    · by_cases h0 : c = 0
      · simp [gradeAux, runsAux, hp, h0, paid]
      · simp [gradeAux, runsAux, hp, h0]
    · simp [gradeAux, runsAux, hp, paid]
  | cons x xs ih =>
    intro prev c v
    by_cases hx : x = t
    · by_cases hp : prev = t
      · have hstep : (gradeAux t prev c v (x :: xs)).2
            = (gradeAux t x (c + 1)
                (v + (if c + 1 = 3 then 100 else if c + 1 = 4 then 900 else 0)) xs).2 := by
          simp [gradeAux, hx, hp]
        have hruns : runsAux t (if prev = t then c else 0) (x :: xs)
            = runsAux t (c + 1) xs := by simp [runsAux, hp, hx]
        rw [hstep, ih x (c + 1) _, hruns, bonus_step_eq]
        simp only [hx, hp, if_pos, eq_self_iff_true, if_true]
        ring
      · have hstep : (gradeAux t prev c v (x :: xs)).2 = (gradeAux t x 1 v xs).2 := by
          simp [gradeAux, hx, hp]
        have hruns : runsAux t (if prev = t then c else 0) (x :: xs)
            = runsAux t 1 xs := by simp [runsAux, hp, hx]
        rw [hstep, ih x 1 v, hruns]
        simp [hx, hp, paid]
    · have hstep : (gradeAux t prev c v (x :: xs)).2 = (gradeAux t x 0 v xs).2 := by
        simp [gradeAux, hx]
      rw [hstep, ih x 0 v]
      simp only [hx, if_neg, not_false_iff]
      by_cases hp : prev = t
      · by_cases h0 : c = 0
        · simp [runsAux, hp, hx, h0, paid]
        · have hruns : runsAux t (if prev = t then c else 0) (x :: xs)
              = c :: runsAux t 0 xs := by simp [runsAux, hp, hx, h0]
          rw [hruns]
          have hpaid0 : paid 0 = 0 := rfl
          simp only [hp, if_pos, List.map_cons, List.sum_cons, hpaid0]
          ring
      · simp [runsAux, hp, hx, paid]

/-- Value accumulated by the graded scan of one whole line: the sum of
`paid` over the line's maximal runs (the stale entry counter is
irrelevant). -/
theorem gradeLine_val (t : Char) (l : List Char) (c : Nat) (v : Int) :
    (gradeLine t c v l).2 = v + ((maximalRuns t l).map paid).sum := by
  cases l with
  | nil => simp [gradeLine, maximalRuns, runsAux]
  | cons x xs =>
    by_cases hx : x = t
    · have hstep : (gradeLine t c v (x :: xs)).2 = (gradeAux t x 1 v xs).2 := by
        simp [gradeLine, hx]
      have hruns : maximalRuns t (x :: xs) = runsAux t 1 xs := by
        simp [maximalRuns, runsAux, hx]
      rw [hstep, gradeAux_val, hruns]
      simp [hx, paid]
    · have hstep : (gradeLine t c v (x :: xs)).2 = (gradeAux t x c v xs).2 := by
        simp [gradeLine, hx]
      have hruns : maximalRuns t (x :: xs) = runsAux t 0 xs := by
        simp [maximalRuns, runsAux, hx]
      rw [hstep, gradeAux_val, hruns]
      simp [hx, paid]

/-- Value accumulated over a family of lines sharing one counter. -/
theorem gradeChain_val (t : Char) (lines : List (List Char)) :
    ∀ (c : Nat) (v : Int),
      (gradeChain t lines c v).2
        = v + (lines.map fun l => ((maximalRuns t l).map paid).sum).sum := by
  induction lines with
  | nil => intro c v; simp [gradeChain]
  | cons l ls ih =>
    intro c v
    have hstep : gradeChain t (l :: ls) c v
        = gradeChain t ls (gradeLine t c v l).1 (gradeLine t c v l).2 := by
      simp [gradeChain, List.foldl_cons]
    rw [hstep, ih, gradeLine_val]
    simp [List.map_cons, List.sum_cons]
    ring

/-- Bonus per maximal run as the heuristic actually awards it: a run of
exactly 3 is worth 100, a run of exactly 4 is worth 1000 (the 100 paid at
length 3 plus the 900 paid at length 4). -/
def bonusAmended (n : Nat) : Int :=
  if n = 3 then 100 else if n = 4 then 1000 else 0

/-- Bonus per maximal run as claim C3 states it: 100 for a run of exactly
3 and only 900 for a run of exactly 4. -/
def bonusClaimed (n : Nat) : Int :=
  if n = 3 then 100 else if n = 4 then 900 else 0

/-- One side's total in the heuristic, for a given per-run bonus table:
centre bonus plus the per-line run bonuses. -/
def sideScore (t : Char) (b : PentagoBoard) (bonus : Nat → Int) : Int :=
  centerVal t b + ((allLines b).map fun l => ((maximalRuns t l).map bonus).sum).sum

theorem paid_eq_bonusAmended (r : Nat) (h : r ≤ 4) : paid r = bonusAmended r := by
  unfold paid bonusAmended
  split_ifs <;> omega

/-- When no run of `t` reaches length 5, the five-in-a-row guard of the
heuristic is false. -/
theorem winScan_parts_false (t : Char) (b : PentagoBoard)
    (ht : ∀ l ∈ allLines b, ∀ r ∈ maximalRuns t l, r ≤ 4) :
    ((scanChain t (rowLines b) 0 false).2
      || (colLines b).any (fun l => (scanLine t 0 false l).2)
      || (scanChain t (diagLines b) 0 false).2) = false := by
  have hmem : ∀ l : List Char,
      (l ∈ rowLines b ∨ l ∈ colLines b ∨ l ∈ diagLines b) → l ∈ allLines b := by
    intro l hl
    simp only [allLines, List.mem_append]
    tauto
  have hrow : (scanChain t (rowLines b) 0 false).2 = false := by
    rw [Bool.eq_false_iff]
    intro hscan
    rcases (scanChain_five_iff t (rowLines b) 0 false).mp hscan with h | ⟨l, hl, r, hr, h5⟩
    · exact absurd h (by simp)
    · have := ht l (hmem l (Or.inl hl)) r hr
      omega
  have hcol : (colLines b).any (fun l => (scanLine t 0 false l).2) = false := by
    rw [Bool.eq_false_iff]
    intro hscan
    rcases List.any_eq_true.mp hscan with ⟨l, hl, hline⟩
    rcases (scanLine_five_iff t l 0 false).mp hline with h | ⟨r, hr, h5⟩
    · exact absurd h (by simp)
    · have := ht l (hmem l (Or.inr (Or.inl hl))) r hr
      omega
  have hdiag : (scanChain t (diagLines b) 0 false).2 = false := by
    rw [Bool.eq_false_iff]
    intro hscan
    rcases (scanChain_five_iff t (diagLines b) 0 false).mp hscan with h | ⟨l, hl, r, hr, h5⟩
    · exact absurd h (by simp)
    · have := ht l (hmem l (Or.inr (Or.inr hl))) r hr
      omega
  rw [hrow, hcol, hdiag]
  rfl

/-- The three graded scans of one side add up to the per-line bonus totals
over all 34 lines, with the amended per-run bonus table. -/
theorem side_sum_eq (t : Char) (b : PentagoBoard)
    (ht : ∀ l ∈ allLines b, ∀ r ∈ maximalRuns t l, r ≤ 4) :
    (gradeChain t (rowLines b) 0 0).2
      + ((colLines b).map fun l => (gradeLine t 0 0 l).2).sum
      + (gradeChain t (diagLines b) 0 0).2
    = ((allLines b).map fun l => ((maximalRuns t l).map bonusAmended).sum).sum := by
  rw [gradeChain_val, gradeChain_val]
  have hcols : ((colLines b).map fun l => (gradeLine t 0 0 l).2)
      = (colLines b).map fun l => ((maximalRuns t l).map paid).sum :=
    List.map_congr_left fun l _ => by rw [gradeLine_val]; ring
  rw [hcols]
  have hsum : ((allLines b).map fun l => ((maximalRuns t l).map bonusAmended).sum)
      = (allLines b).map fun l => ((maximalRuns t l).map paid).sum :=
    List.map_congr_left fun l hl =>
      (congrArg List.sum
        (List.map_congr_left fun r hr => paid_eq_bonusAmended r (ht l hl r hr))).symm
  rw [hsum]
  unfold allLines
  rw [List.map_append, List.map_append, List.sum_append, List.sum_append]
  ring

/-- Claim C3 (amended): on a board where no maximal run of either token
reaches length 5, the heuristic equals the centre bonuses plus per-run
bonuses of 100 for each maximal run of exactly 3 and 1000 (not 900) for
each maximal run of exactly 4, own side minus opponent side. -/
theorem h_eq_run_bonuses (p : Player) (b : PentagoBoard)
    (hown : ∀ l ∈ allLines b, ∀ r ∈ maximalRuns p.token l, r ≤ 4)
    (hopp : ∀ l ∈ allLines b,
      ∀ r ∈ maximalRuns (if p.token = 'w' then 'b' else 'w') l, r ≤ 4) :
    p.h b = sideScore p.token b bonusAmended
      - sideScore (if p.token = 'w' then 'b' else 'w') b bonusAmended := by
  have g1 := winScan_parts_false p.token b hown
  have g2 := winScan_parts_false (if p.token = 'w' then 'b' else 'w') b hopp
  have hh : p.h b
      = (centerVal p.token b + (gradeChain p.token (rowLines b) 0 0).2
          + ((colLines b).map fun l => (gradeLine p.token 0 0 l).2).sum
          + (gradeChain p.token (diagLines b) 0 0).2)
        - (centerVal (if p.token = 'w' then 'b' else 'w') b
          + (gradeChain (if p.token = 'w' then 'b' else 'w') (rowLines b) 0 0).2
          + ((colLines b).map fun l =>
              (gradeLine (if p.token = 'w' then 'b' else 'w') 0 0 l).2).sum
          + (gradeChain (if p.token = 'w' then 'b' else 'w') (diagLines b) 0 0).2) := by
    simp only [Player.h]
    rw [g1, g2]
    simp
  rw [hh]
  unfold sideScore
  have e1 := side_sum_eq p.token b hown
  have e2 := side_sum_eq (if p.token = 'w' then 'b' else 'w') b hopp
  omega

/-- A board holding a single maximal run of exactly 4 'w' tokens in row 0
(no interior cells, no other runs, no 'b' tokens). -/
def run4Board : PentagoBoard :=
  PentagoBoard.fromString "wwww................................"

/-- Counterexample to claim C3: on `run4Board` the heuristic for 'w' is
1000, while the claim's per-run bonus table (exactly +900 for a maximal
run of 4) predicts 900: the length-3 bonus fires on the way to length 4,
so a maximal 4-run contributes 1000. -/
theorem h_run_bonus_counterexample :
    (Player.mk "x" "computer" 'w').h run4Board = 1000 ∧
      sideScore 'w' run4Board bonusClaimed - sideScore 'b' run4Board bonusClaimed = 900 ∧
      (Player.mk "x" "computer" 'w').h run4Board
        ≠ sideScore 'w' run4Board bonusClaimed - sideScore 'b' run4Board bonusClaimed := by
  decide

/-- Witness for the amended C3 at a concrete board. -/
theorem h_eq_run_bonuses_witness :
    (∀ l ∈ allLines run4Board, ∀ r ∈ maximalRuns 'w' l, r ≤ 4) ∧
      (∀ l ∈ allLines run4Board,
        ∀ r ∈ maximalRuns (if ('w' : Char) = 'w' then 'b' else 'w') l, r ≤ 4) ∧
      (Player.mk "x" "computer" 'w').h run4Board
        = sideScore 'w' run4Board bonusAmended
          - sideScore (if ('w' : Char) = 'w' then 'b' else 'w') run4Board bonusAmended :=
  ⟨by decide, by decide,
    h_eq_run_bonuses (Player.mk "x" "computer" 'w') run4Board (by decide) (by decide)⟩

/-! ### Parsing the enumerated move texts (towards claim C1) -/

theorem string_toList_append (s t : String) : (s ++ t).toList = s.toList ++ t.toList :=
  String.data_append s t

theorem repr_digit_toList (n : Nat) (h1 : 1 ≤ n) (h2 : n ≤ 9) :
    (Nat.repr n).toList = [Char.ofNat (n + 48)] := by
  interval_cases n <;> rfl

theorem char_digit_toNat (n : Nat) (h : n ≤ 9) : (Char.ofNat (n + 48)).toNat = n + 48 := by
  interval_cases n <;> rfl

theorem moveText_toList (i j k : Nat) (hi : i < 6) (hj : j < 6) (hk : k < 4) (d : String) :
    (moveText i j k d).toList
      = Char.ofNat ((i / 3) * 2 + j / 3 + 1 + 48) :: '/' ::
        Char.ofNat ((i % 3) * 3 + j % 3 + 1 + 48) :: ' ' ::
        Char.ofNat (k + 1 + 48) :: d.toList := by
  unfold moveText
  simp only [string_toList_append]
  rw [repr_digit_toList _ (by omega) (by omega), repr_digit_toList _ (by omega) (by omega),
    repr_digit_toList _ (by omega) (by omega)]
  rfl

theorem digitAt_moveText_0 (i j k : Nat) (hi : i < 6) (hj : j < 6) (hk : k < 4) (d : String) :
    digitAt (moveText i j k d) 0 = (i / 3) * 2 + j / 3 + 1 := by
  unfold digitAt
  rw [moveText_toList i j k hi hj hk d]
  show (Char.ofNat ((i / 3) * 2 + j / 3 + 1 + 48)).toNat - '0'.toNat = _
  rw [char_digit_toNat _ (by omega)]
  show _ - 48 = _
  omega

theorem digitAt_moveText_2 (i j k : Nat) (hi : i < 6) (hj : j < 6) (hk : k < 4) (d : String) :
    digitAt (moveText i j k d) 2 = (i % 3) * 3 + j % 3 + 1 := by
  unfold digitAt
  rw [moveText_toList i j k hi hj hk d]
  show (Char.ofNat ((i % 3) * 3 + j % 3 + 1 + 48)).toNat - '0'.toNat = _
  rw [char_digit_toNat _ (by omega)]
  show _ - 48 = _
  omega

theorem digitAt_moveText_4 (i j k : Nat) (hi : i < 6) (hj : j < 6) (hk : k < 4) (d : String) :
    digitAt (moveText i j k d) 4 = k + 1 := by
  unfold digitAt
  rw [moveText_toList i j k hi hj hk d]
  show (Char.ofNat (k + 1 + 48)).toNat - '0'.toNat = _
  rw [char_digit_toNat _ (by omega)]
  show _ - 48 = _
  omega

theorem moveText_getD5 (i j k : Nat) (hi : i < 6) (hj : j < 6) (hk : k < 4) (d : String) :
    (moveText i j k d).toList.getD 5 ' ' = d.toList.getD 0 ' ' := by
  rw [moveText_toList i j k hi hj hk d]
  rfl

/-- Applying an enumerated move places the token on the enumerated cell
and rotates the enumerated quadrant in the enumerated direction. -/
theorem applyMove_moveText (b : PentagoBoard) (i j k : Nat)
    (hi : i < 6) (hj : j < 6) (hk : k < 4) (tok : Char) :
    b.applyMove (moveText i j k "L") tok = (placeCell b i j tok).rotateLeft (k + 1) ∧
      b.applyMove (moveText i j k "R") tok = (placeCell b i j tok).rotateRight (k + 1) := by
  have e1 : ((i % 3) * 3 + j % 3 + 1 - 1) / 3 + 3 * (((i / 3) * 2 + j / 3 + 1 - 1) / 2) = i := by
    omega
  have e2 : ((i % 3) * 3 + j % 3 + 1 - 1) % 3 + 3 * (((i / 3) * 2 + j / 3 + 1 - 1) % 2) = j := by
    omega
  constructor
  · unfold PentagoBoard.applyMove
    rw [digitAt_moveText_0 i j k hi hj hk, digitAt_moveText_2 i j k hi hj hk,
      digitAt_moveText_4 i j k hi hj hk, moveText_getD5 i j k hi hj hk]
    show b.applyMoveP _ _ _ 'L' tok = _
    unfold PentagoBoard.applyMoveP
    rw [if_neg (by decide : ¬(('L' : Char) = 'r' ∨ ('L' : Char) = 'R'))]
    rw [e1, e2]
  · unfold PentagoBoard.applyMove
    rw [digitAt_moveText_0 i j k hi hj hk, digitAt_moveText_2 i j k hi hj hk,
      digitAt_moveText_4 i j k hi hj hk, moveText_getD5 i j k hi hj hk]
    show b.applyMoveP _ _ _ 'R' tok = _
    unfold PentagoBoard.applyMoveP
    rw [if_pos (Or.inr rfl)]
    rw [e1, e2]

/-- Every enumerated move comes from an empty cell (i, j), a rotation
quadrant index k and a direction. -/
theorem mem_getMoves (b : PentagoBoard) (m : String) (hm : m ∈ b.getMoves) :
    ∃ i j k, i < 6 ∧ j < 6 ∧ k < 4 ∧ b.cells i j = '.' ∧
      (m = moveText i j k "L" ∨ m = moveText i j k "R") := by
  unfold PentagoBoard.getMoves at hm
  rw [List.mem_flatMap] at hm
  obtain ⟨i, hi, hm⟩ := hm
  rw [List.mem_flatMap] at hm
  obtain ⟨j, hj, hm⟩ := hm
  rw [List.mem_range] at hi
  rw [List.mem_range] at hj
  by_cases hc : b.cells i j = '.'
  · rw [if_pos hc, List.mem_flatMap] at hm
    obtain ⟨k, hk, hm⟩ := hm
    rw [List.mem_range] at hk
    simp only [List.mem_cons, List.not_mem_nil, or_false] at hm
    exact ⟨i, j, k, hi, hj, hk, hc, hm⟩
  · rw [if_neg hc] at hm
    exact absurd hm (List.not_mem_nil m)

/-- Applying any enumerated move with a real token reduces the number of
empty grid cells by exactly one. -/
theorem numEmptyGrid_applyMove_mem (b : PentagoBoard) (m : String) (tok : Char)
    (hm : m ∈ b.getMoves) (htok : tok ≠ '.') :
    numEmptyGrid (b.applyMove m tok) + 1 = numEmptyGrid b := by
  obtain ⟨i, j, k, hi, hj, hk, hc, hLR⟩ := mem_getMoves b m hm
  rcases hLR with rfl | rfl
  · rw [(applyMove_moveText b i j k hi hj hk tok).1,
      numEmptyGrid_rotateLeft _ (k + 1) (by omega) (by omega),
      numEmptyGrid_placeCell b i j tok hi hj hc htok]
  · rw [(applyMove_moveText b i j k hi hj hk tok).2,
      numEmptyGrid_rotateRight _ (k + 1) (by omega) (by omega),
      numEmptyGrid_placeCell b i j tok hi hj hc htok]

/-- The move-selection loop never produces `(none, 0)` when every
candidate leaves the opponent with at least one reply: the win exit
returns a move, the exhausted loop returns the initial sentinel maximum
`-(INFINITY + 1)` (not 0) when no move was kept. -/
theorem miniMax2Go_ne_none_zero (p : Player) (b : PentagoBoard) (rest : List String) :
    (∀ m ∈ rest, (b.applyMove m p.token).getMoves.length ≠ 0) →
    ∀ (mx : Int) (fm : Option String), (fm = none → mx ≠ 0) →
      p.miniMax2Go b rest mx fm ≠ (none, 0) := by
  induction rest with
  | nil =>
    intro _ mx fm hfm heq
    have h1 : fm = none := congrArg Prod.fst heq
    have h2 : mx = 0 := congrArg Prod.snd heq
    exact hfm h1 h2
  | cons m rest ih =>
    intro hall mx fm hfm
    have hen := hall m (List.mem_cons_self m rest)
    cases hwin : p.win (b.applyMove m p.token) with
    | true =>
      simp only [Player.miniMax2Go, hwin]
      intro heq
      exact Option.some_ne_none m (congrArg Prod.fst heq)
    | false =>
      simp only [Player.miniMax2Go, hwin]
      rw [if_neg hen]
      simp only [Bool.false_eq_true, if_false]
      split_ifs with htk hgt hgt
      · exact ih (fun m' hm' => hall m' (List.mem_cons_of_mem m hm')) _ (some m)
          (fun h => absurd h (by simp))
      · exact ih (fun m' hm' => hall m' (List.mem_cons_of_mem m hm')) mx fm hfm
      · exact ih (fun m' hm' => hall m' (List.mem_cons_of_mem m hm')) _ (some m)
          (fun h => absurd h (by simp))
      · exact ih (fun m' hm' => hall m' (List.mem_cons_of_mem m hm')) mx fm hfm

/-- Claim C1 (amended): the production search returns `(no move, 0)`
exactly when the acting player's own move list is empty OR the board has
exactly one empty cell and the first enumerated move is not an immediate
win (in that case the first move is applied, the board is then full, so
the opponent's reply list is empty and the code returns `(None, 0)` even
though the acting player had legal moves).  With two or more empty cells
the search always returns an actual move or a non-zero score. -/
theorem miniMax2_none_zero_iff (p : Player) (b : PentagoBoard) (mn : Int)
    (htok : p.token = 'w' ∨ p.token = 'b') :
    p.miniMax2 b mn = (none, 0) ↔
      (b.getMoves = [] ∨
        (numEmptyGrid b = 1 ∧
          ∀ m ∈ b.getMoves.take 1, p.win (b.applyMove m p.token) = false)) := by
  have htok' : p.token ≠ '.' := by rcases htok with h | h <;> simp [h]
  cases hmv : b.getMoves with
  | nil => simp [Player.miniMax2, hmv]
  | cons m ms =>
    have hmemm : m ∈ b.getMoves := by rw [hmv]; exact List.mem_cons_self m ms
    have hlen := getMoves_length b
    have hn1 : 1 ≤ numEmptyGrid b := by
      rw [hmv] at hlen
      simp only [List.length_cons] at hlen
      omega
    have hdrop := numEmptyGrid_applyMove_mem b m p.token hmemm htok'
    have henlen := getMoves_length (b.applyMove m p.token)
    have htake : (m :: ms).take 1 = [m] := rfl
    have hLHS : p.miniMax2 b mn = p.miniMax2Go b (m :: ms) (-(INFINITY + 1)) none := by
      simp [Player.miniMax2, hmv]
    by_cases hwin : p.win (b.applyMove m p.token) = true
    · have hres : p.miniMax2 b mn = (some m, INFINITY) := by
        rw [hLHS]
        simp [Player.miniMax2Go, hwin]
      rw [hres]
      constructor
      · intro heq
        exact absurd (congrArg Prod.fst heq) (by simp)
      · rintro (h | ⟨_, h2⟩)
        · exact absurd h (by simp)
        · have hf := h2 m (by rw [htake]; exact List.mem_singleton.mpr rfl)
          rw [hf] at hwin
          exact absurd hwin (by simp)
    · have hwin' : p.win (b.applyMove m p.token) = false := Bool.eq_false_iff.mpr hwin
      by_cases hone : numEmptyGrid b = 1
      · have hzero : (b.applyMove m p.token).getMoves.length = 0 := by
          rw [henlen]
          omega
        have hres : p.miniMax2 b mn = (none, 0) := by
          rw [hLHS]
          simp only [Player.miniMax2Go, hwin', Bool.false_eq_true, if_false]
          rw [if_pos hzero]
        rw [hres]
        constructor
        · intro _
          refine Or.inr ⟨hone, ?_⟩
          intro m' hm'
          rw [htake] at hm'
          rw [List.mem_singleton.mp hm']
          exact hwin'
        · intro _
          rfl
      · have hall : ∀ m' ∈ (m :: ms), (b.applyMove m' p.token).getMoves.length ≠ 0 := by
          intro m' hm'
          have hmem' : m' ∈ b.getMoves := by rw [hmv]; exact hm'
          have hd := numEmptyGrid_applyMove_mem b m' p.token hmem' htok'
          rw [getMoves_length]
          omega
        have hne := miniMax2Go_ne_none_zero p b (m :: ms) hall (-(INFINITY + 1)) none
          (fun _ => by norm_num [INFINITY])
        rw [hLHS]
        constructor
        · intro heq
          exact absurd heq hne
        · rintro (h | ⟨h1, _⟩)
          · exact absurd h (by simp)
          · exact absurd h1 hone

/-- A board with exactly one empty cell (at row 5, column 5) and no
five-in-a-row threat for either side anywhere. -/
def oneEmptyBoard : PentagoBoard :=
  PentagoBoard.fromString
    ("wwbbww" ++ "bbwwbb" ++ "wwbbww" ++ "bbwwbb" ++ "wwbbww" ++ "bbwwb.")

/-- Counterexample to claim C1: on `oneEmptyBoard` the acting player 'w'
has 8 legal moves, yet `miniMax2` returns `(None, 0)`: the first move
"4/9 1L" does not win, the board after it is full, so the loop hits the
empty opponent-reply exit. -/
theorem miniMax2_none_zero_counterexample :
    oneEmptyBoard.getMoves.length = 8 ∧
      (Player.mk "x" "computer" 'w').miniMax2 oneEmptyBoard INFINITY = (none, 0) := by
  decide

/-- Witness for the amended C1 at a concrete board. -/
theorem miniMax2_none_zero_iff_witness :
    ((Player.mk "x" "computer" 'w').token = 'w' ∨
        (Player.mk "x" "computer" 'w').token = 'b') ∧
      ((Player.mk "x" "computer" 'w').miniMax2 oneEmptyBoard INFINITY = (none, 0) ↔
        (oneEmptyBoard.getMoves = [] ∨
          (numEmptyGrid oneEmptyBoard = 1 ∧
            ∀ m ∈ oneEmptyBoard.getMoves.take 1,
              (Player.mk "x" "computer" 'w').win
                (oneEmptyBoard.applyMove m (Player.mk "x" "computer" 'w').token) = false))) :=
  ⟨Or.inl rfl,
    miniMax2_none_zero_iff (Player.mk "x" "computer" 'w') oneEmptyBoard INFINITY (Or.inl rfl)⟩
